import Mathlib

/-!
# neojaw/math: `math::Matrix<T, Rows, Cols>` and its closed-form inverses

A shallow embedding of `src/include/math/Matrix.h`.

* `std::array<T, Rows * Cols> data` is a function `Fin (Rows * Cols) → T`.
* The scalar type `T` is a parameter; each operation asks only for the
  operators the C++ body uses (`+ - * /`, unary minus, `0`, `1`, `==`).
* `for` loops are `Fin.foldl` over the loop variable, the loop body being a
  state update on the matrix written to; the range-based loop of the list
  constructor is a `List.foldl` whose state carries the counter `i`.
* Reads `m(i, j)` and `m[k]` take indices inside the matrix (`Fin`): the
  source does no bounds checking and reading outside the buffer is undefined.
  Writes `m(i, j) = v` and `m[k] = v` take plain numbers and overwrite the
  buffer cell with that offset.
* A `throw` is `Except.error`; a function that can throw returns `Except`.

The file has three parts: the definitions (the embedding, the reference
notions and the concrete inputs), the lemmas on loops and on the closed-form
inverses, and the claims.
-/

/-- The mathematical determinant (Mathlib's `Matrix.det`, i.e. the Leibniz
formula) of the square array whose entry in row `i`, column `j` is `f i j`. -/
def leibnizDet {T : Type} [CommRing T] {n : Nat} (f : Fin n → Fin n → T) : T :=
  Matrix.det (Matrix.of f)

namespace math

/-- The two exception classes thrown by the library, with their message. -/
inductive Error where
  | logic_error (what : String)
  | runtime_error (what : String)
  deriving DecidableEq

/-- `template<typename T, size_t Rows, size_t Cols> class Matrix`, whose only
member is `std::array<T, Rows * Cols> data`. -/
structure Matrix (T : Type) (Rows Cols : Nat) where
  data : Fin (Rows * Cols) → T

namespace Matrix

variable {T : Type} {Rows Cols N : Nat}

/-- `bool operator==(const Matrix& B) const { return data == B.data; }`. -/
instance instDecidableEq [DecidableEq T] : DecidableEq (Matrix T Rows Cols) :=
  fun A B => decidable_of_iff (A.data = B.data)
    ⟨fun h => by cases A; cases B; cases h; rfl, fun h => by rw [h]⟩

/-- `Matrix() : data({})`: every element is the scalar zero. -/
def zero (T : Type) (Rows Cols : Nat) [Zero T] : Matrix T Rows Cols :=
  ⟨fun _ => 0⟩

/-- `const T& operator()(size_t i, size_t j) const { return data[j * Rows + i]; }`
at a position inside the matrix. -/
def elem (m : Matrix T Rows Cols) (i : Fin Rows) (j : Fin Cols) : T :=
  m.data ⟨j * Rows + i, by
    calc j.val * Rows + i.val < j.val * Rows + Rows := Nat.add_lt_add_left i.isLt _
      _ = Rows * (j.val + 1) := by ring
      _ ≤ Rows * Cols := Nat.mul_le_mul_left Rows j.isLt⟩

/-- `T& operator()(size_t i, size_t j)` used as the target of an assignment:
`data[j * Rows + i] = v`. The indices are plain numbers as in the source; the
buffer cell whose offset is `j * Rows + i` is overwritten. -/
def set (m : Matrix T Rows Cols) (i j : Nat) (v : T) : Matrix T Rows Cols :=
  ⟨fun k => if k.val = j * Rows + i then v else m.data k⟩

/-- `const T& operator[](size_t i) const { return data[i]; }` at an offset
inside the buffer. -/
def idx (m : Matrix T Rows Cols) (i : Fin (Rows * Cols)) : T :=
  m.data i

/-- `T& operator[](size_t i)` used as the target of an assignment: `data[i] = v`. -/
def setIdx (m : Matrix T Rows Cols) (i : Nat) (v : T) : Matrix T Rows Cols :=
  ⟨fun k => if k.val = i then v else m.data k⟩

/-- `Matrix(const std::initializer_list<T>& list)`. The constructor has no
member initializer, so the buffer starts with indeterminate content, here the
parameter `init`; the loop then writes `list`'s values one by one, `i` counting
them. -/
def ofList (init : Matrix T Rows Cols) (list : List T) : Except Error (Matrix T Rows Cols) :=
  if list.length ≠ Rows * Cols then
    throw (Error.logic_error "list.size() != Rows * Cols")
  else
    pure (list.foldl
      (fun (st : Matrix T Rows Cols × Nat) v => (st.1.set (st.2 / Cols) (st.2 % Cols) v, st.2 + 1))
      (init, 0)).1

/-- `static Matrix Identity()`. -/
def Identity (T : Type) (Rows Cols : Nat) [Zero T] [One T] : Except Error (Matrix T Rows Cols) :=
  if Rows ≠ Cols then
    throw (Error.logic_error "Rows != Cols")
  else
    pure (Fin.foldl Rows (fun res i => res.set i i 1) (zero T Rows Cols))

/-- `Matrix<T, Cols, Rows> transpose() const`. -/
def transpose [Zero T] (m : Matrix T Rows Cols) : Matrix T Cols Rows :=
  Fin.foldl Cols (fun res j =>
    Fin.foldl Rows (fun res i => res.set j i (m.elem i j)) res) (zero T Cols Rows)

/-- `Matrix<T, Rows, N> operator*(const Matrix<T, Cols, N>& B) const`. -/
def mul [Zero T] [Add T] [Mul T] (A : Matrix T Rows Cols) (B : Matrix T Cols N) :
    Matrix T Rows N :=
  Fin.foldl Rows (fun C i =>
    Fin.foldl N (fun C j =>
      Fin.foldl Cols (fun C k => C.set i j (C.elem i j + A.elem i k * B.elem k j)) C) C)
    (zero T Rows N)

/-- `Matrix& operator*=(const T& value)`: the returned value is the updated `*this`. -/
def mulAssignScalar [Mul T] (m : Matrix T Rows Cols) (value : T) : Matrix T Rows Cols :=
  Fin.foldl (Rows * Cols) (fun self i => self.setIdx i (self.idx i * value)) m

/-- `Matrix operator*(const T& value) const { Matrix C = *this; C *= value; return C; }`. -/
def mulScalar [Mul T] (m : Matrix T Rows Cols) (value : T) : Matrix T Rows Cols :=
  m.mulAssignScalar value

end Matrix

variable {T : Type} {Rows Cols N : Nat}

/-- The generic `inverse(const Matrix<T, Rows, Cols>& mat)`: always throws. -/
def inverse (_mat : Matrix T Rows Cols) : Except Error (Matrix T Rows Cols) :=
  throw (Error.logic_error "not implemented")

/-- `Matrix<T, 1, 1> inverse(const Matrix<T, 1, 1>& m)`. -/
def inverse_1x1 [One T] [Mul T] [Div T] (m : Matrix T 1 1) : Except Error (Matrix T 1 1) :=
  pure (m.mulScalar ((1 : T) / m.idx 0))

/-- `Matrix<T, 2, 2> inverse(const Matrix<T, 2, 2>& m)`. -/
def inverse_2x2 [Zero T] [One T] [Sub T] [Mul T] [Neg T] [Div T] [DecidableEq T]
    (m : Matrix T 2 2) : Except Error (Matrix T 2 2) :=
  let det := (m.elem 0 0 * m.elem 1 1) - (m.elem 0 1 * m.elem 1 0)
  if det = 0 then
    throw (Error.runtime_error "inverse(): determinant = 0")
  else
    let tmp := Matrix.zero T 2 2
    let tmp := tmp.set 0 0 (m.elem 1 1)
    let tmp := tmp.set 1 0 (-m.elem 1 0)
    let tmp := tmp.set 0 1 (-m.elem 0 1)
    let tmp := tmp.set 1 1 (m.elem 0 0)
    pure (tmp.mulScalar ((1 : T) / det))

/-- `Matrix<T, 3, 3> inverse(const Matrix<T, 3, 3>& m)`. -/
def inverse_3x3 [Zero T] [One T] [Add T] [Sub T] [Mul T] [Div T] [DecidableEq T]
    (m : Matrix T 3 3) : Except Error (Matrix T 3 3) :=
  let det := m.elem 0 0 * (m.elem 1 1 * m.elem 2 2 - m.elem 2 1 * m.elem 1 2) -
             m.elem 0 1 * (m.elem 1 0 * m.elem 2 2 - m.elem 1 2 * m.elem 2 0) +
             m.elem 0 2 * (m.elem 1 0 * m.elem 2 1 - m.elem 1 1 * m.elem 2 0)
  if det = 0 then
    throw (Error.runtime_error "inverse(): determinant = 0")
  else
    let tmp := Matrix.zero T 3 3
    let tmp := tmp.set 0 0 (m.elem 1 1 * m.elem 2 2 - m.elem 2 1 * m.elem 1 2)
    let tmp := tmp.set 0 1 (m.elem 0 2 * m.elem 2 1 - m.elem 0 1 * m.elem 2 2)
    let tmp := tmp.set 0 2 (m.elem 0 1 * m.elem 1 2 - m.elem 0 2 * m.elem 1 1)
    let tmp := tmp.set 1 0 (m.elem 1 2 * m.elem 2 0 - m.elem 1 0 * m.elem 2 2)
    let tmp := tmp.set 1 1 (m.elem 0 0 * m.elem 2 2 - m.elem 0 2 * m.elem 2 0)
    let tmp := tmp.set 1 2 (m.elem 1 0 * m.elem 0 2 - m.elem 0 0 * m.elem 1 2)
    let tmp := tmp.set 2 0 (m.elem 1 0 * m.elem 2 1 - m.elem 2 0 * m.elem 1 1)
    let tmp := tmp.set 2 1 (m.elem 2 0 * m.elem 0 1 - m.elem 0 0 * m.elem 2 1)
    let tmp := tmp.set 2 2 (m.elem 0 0 * m.elem 1 1 - m.elem 1 0 * m.elem 0 1)
    pure (tmp.mulScalar ((1 : T) / det))

/-- The first part of `Matrix<T, 4, 4> inverse(const Matrix<T, 4, 4>& m)`: the local
`tmp` after its sixteen assignments `tmp[k] = ...`, in the order of the source. -/
def inverse_4x4_tmp [Zero T] [Add T] [Sub T] [Mul T] [Neg T] (m : Matrix T 4 4) : Matrix T 4 4 :=
  let tmp := Matrix.zero T 4 4
  let tmp := tmp.setIdx 0 (m.idx 5 * m.idx 10 * m.idx 15 - m.idx 5 * m.idx 11 * m.idx 14 - m.idx 9 * m.idx 6 * m.idx 15
      + m.idx 9 * m.idx 7 * m.idx 14 + m.idx 13 * m.idx 6 * m.idx 11 - m.idx 13 * m.idx 7 * m.idx 10)
  let tmp := tmp.setIdx 4 ((-m.idx 4) * m.idx 10 * m.idx 15 + m.idx 4 * m.idx 11 * m.idx 14 + m.idx 8 * m.idx 6 * m.idx 15
      - m.idx 8 * m.idx 7 * m.idx 14 - m.idx 12 * m.idx 6 * m.idx 11 + m.idx 12 * m.idx 7 * m.idx 10)
  let tmp := tmp.setIdx 8 (m.idx 4 * m.idx 9 * m.idx 15 - m.idx 4 * m.idx 11 * m.idx 13 - m.idx 8 * m.idx 5 * m.idx 15
      + m.idx 8 * m.idx 7 * m.idx 13 + m.idx 12 * m.idx 5 * m.idx 11 - m.idx 12 * m.idx 7 * m.idx 9)
  let tmp := tmp.setIdx 12 ((-m.idx 4) * m.idx 9 * m.idx 14 + m.idx 4 * m.idx 10 * m.idx 13 + m.idx 8 * m.idx 5 * m.idx 14
      - m.idx 8 * m.idx 6 * m.idx 13 - m.idx 12 * m.idx 5 * m.idx 10 + m.idx 12 * m.idx 6 * m.idx 9)
  let tmp := tmp.setIdx 1 ((-m.idx 1) * m.idx 10 * m.idx 15 + m.idx 1 * m.idx 11 * m.idx 14 + m.idx 9 * m.idx 2 * m.idx 15
      - m.idx 9 * m.idx 3 * m.idx 14 - m.idx 13 * m.idx 2 * m.idx 11 + m.idx 13 * m.idx 3 * m.idx 10)
  let tmp := tmp.setIdx 5 (m.idx 0 * m.idx 10 * m.idx 15 - m.idx 0 * m.idx 11 * m.idx 14 - m.idx 8 * m.idx 2 * m.idx 15
      + m.idx 8 * m.idx 3 * m.idx 14 + m.idx 12 * m.idx 2 * m.idx 11 - m.idx 12 * m.idx 3 * m.idx 10)
  let tmp := tmp.setIdx 9 ((-m.idx 0) * m.idx 9 * m.idx 15 + m.idx 0 * m.idx 11 * m.idx 13 + m.idx 8 * m.idx 1 * m.idx 15
      - m.idx 8 * m.idx 3 * m.idx 13 - m.idx 12 * m.idx 1 * m.idx 11 + m.idx 12 * m.idx 3 * m.idx 9)
  let tmp := tmp.setIdx 13 (m.idx 0 * m.idx 9 * m.idx 14 - m.idx 0 * m.idx 10 * m.idx 13 - m.idx 8 * m.idx 1 * m.idx 14
      + m.idx 8 * m.idx 2 * m.idx 13 + m.idx 12 * m.idx 1 * m.idx 10 - m.idx 12 * m.idx 2 * m.idx 9)
  let tmp := tmp.setIdx 2 (m.idx 1 * m.idx 6 * m.idx 15 - m.idx 1 * m.idx 7 * m.idx 14 - m.idx 5 * m.idx 2 * m.idx 15
      + m.idx 5 * m.idx 3 * m.idx 14 + m.idx 13 * m.idx 2 * m.idx 7 - m.idx 13 * m.idx 3 * m.idx 6)
  let tmp := tmp.setIdx 6 ((-m.idx 0) * m.idx 6 * m.idx 15 + m.idx 0 * m.idx 7 * m.idx 14 + m.idx 4 * m.idx 2 * m.idx 15
      - m.idx 4 * m.idx 3 * m.idx 14 - m.idx 12 * m.idx 2 * m.idx 7 + m.idx 12 * m.idx 3 * m.idx 6)
  let tmp := tmp.setIdx 10 (m.idx 0 * m.idx 5 * m.idx 15 - m.idx 0 * m.idx 7 * m.idx 13 - m.idx 4 * m.idx 1 * m.idx 15
      + m.idx 4 * m.idx 3 * m.idx 13 + m.idx 12 * m.idx 1 * m.idx 7 - m.idx 12 * m.idx 3 * m.idx 5)
  let tmp := tmp.setIdx 14 ((-m.idx 0) * m.idx 5 * m.idx 14 + m.idx 0 * m.idx 6 * m.idx 13 + m.idx 4 * m.idx 1 * m.idx 14
      - m.idx 4 * m.idx 2 * m.idx 13 - m.idx 12 * m.idx 1 * m.idx 6 + m.idx 12 * m.idx 2 * m.idx 5)
  let tmp := tmp.setIdx 3 ((-m.idx 1) * m.idx 6 * m.idx 11 + m.idx 1 * m.idx 7 * m.idx 10 + m.idx 5 * m.idx 2 * m.idx 11
      - m.idx 5 * m.idx 3 * m.idx 10 - m.idx 9 * m.idx 2 * m.idx 7 + m.idx 9 * m.idx 3 * m.idx 6)
  let tmp := tmp.setIdx 7 (m.idx 0 * m.idx 6 * m.idx 11 - m.idx 0 * m.idx 7 * m.idx 10 - m.idx 4 * m.idx 2 * m.idx 11
      + m.idx 4 * m.idx 3 * m.idx 10 + m.idx 8 * m.idx 2 * m.idx 7 - m.idx 8 * m.idx 3 * m.idx 6)
  let tmp := tmp.setIdx 11 ((-m.idx 0) * m.idx 5 * m.idx 11 + m.idx 0 * m.idx 7 * m.idx 9 + m.idx 4 * m.idx 1 * m.idx 11
      - m.idx 4 * m.idx 3 * m.idx 9 - m.idx 8 * m.idx 1 * m.idx 7 + m.idx 8 * m.idx 3 * m.idx 5)
  let tmp := tmp.setIdx 15 (m.idx 0 * m.idx 5 * m.idx 10 - m.idx 0 * m.idx 6 * m.idx 9 - m.idx 4 * m.idx 1 * m.idx 10
      + m.idx 4 * m.idx 2 * m.idx 9 + m.idx 8 * m.idx 1 * m.idx 6 - m.idx 8 * m.idx 2 * m.idx 5)
  tmp

/-- `Matrix<T, 4, 4> inverse(const Matrix<T, 4, 4>& m)`: `tmp` is filled as in
`inverse_4x4_tmp`, then the determinant is formed and tested. -/
def inverse_4x4 [Zero T] [One T] [Add T] [Sub T] [Mul T] [Neg T] [Div T] [DecidableEq T]
    (m : Matrix T 4 4) : Except Error (Matrix T 4 4) :=
  let tmp := inverse_4x4_tmp m
  let det : T := m.idx 0 * tmp.idx 0 + m.idx 1 * tmp.idx 4 + m.idx 2 * tmp.idx 8 + m.idx 3 * tmp.idx 12
  if det = 0 then
    throw (Error.runtime_error "inverse(): determinant = 0")
  else
    pure (tmp.mulScalar ((1 : T) / det))

/-- The local `det` of the 2x2 `inverse`, as a function of `m`. -/
def inverse_2x2_det [Sub T] [Mul T] (m : Matrix T 2 2) : T :=
  (m.elem 0 0 * m.elem 1 1) - (m.elem 0 1 * m.elem 1 0)

/-- The local `tmp` of the 2x2 `inverse` after its four assignments. -/
def inverse_2x2_tmp [Zero T] [Neg T] (m : Matrix T 2 2) : Matrix T 2 2 :=
  let tmp := Matrix.zero T 2 2
  let tmp := tmp.set 0 0 (m.elem 1 1)
  let tmp := tmp.set 1 0 (-m.elem 1 0)
  let tmp := tmp.set 0 1 (-m.elem 0 1)
  let tmp := tmp.set 1 1 (m.elem 0 0)
  tmp

/-- The local `det` of the 3x3 `inverse`, as a function of `m`. -/
def inverse_3x3_det [Add T] [Sub T] [Mul T] (m : Matrix T 3 3) : T :=
  m.elem 0 0 * (m.elem 1 1 * m.elem 2 2 - m.elem 2 1 * m.elem 1 2) -
  m.elem 0 1 * (m.elem 1 0 * m.elem 2 2 - m.elem 1 2 * m.elem 2 0) +
  m.elem 0 2 * (m.elem 1 0 * m.elem 2 1 - m.elem 1 1 * m.elem 2 0)

/-- The local `tmp` of the 3x3 `inverse` after its nine assignments. -/
def inverse_3x3_tmp [Zero T] [Sub T] [Mul T] (m : Matrix T 3 3) : Matrix T 3 3 :=
  let tmp := Matrix.zero T 3 3
  let tmp := tmp.set 0 0 (m.elem 1 1 * m.elem 2 2 - m.elem 2 1 * m.elem 1 2)
  let tmp := tmp.set 0 1 (m.elem 0 2 * m.elem 2 1 - m.elem 0 1 * m.elem 2 2)
  let tmp := tmp.set 0 2 (m.elem 0 1 * m.elem 1 2 - m.elem 0 2 * m.elem 1 1)
  let tmp := tmp.set 1 0 (m.elem 1 2 * m.elem 2 0 - m.elem 1 0 * m.elem 2 2)
  let tmp := tmp.set 1 1 (m.elem 0 0 * m.elem 2 2 - m.elem 0 2 * m.elem 2 0)
  let tmp := tmp.set 1 2 (m.elem 1 0 * m.elem 0 2 - m.elem 0 0 * m.elem 1 2)
  let tmp := tmp.set 2 0 (m.elem 1 0 * m.elem 2 1 - m.elem 2 0 * m.elem 1 1)
  let tmp := tmp.set 2 1 (m.elem 2 0 * m.elem 0 1 - m.elem 0 0 * m.elem 2 1)
  let tmp := tmp.set 2 2 (m.elem 0 0 * m.elem 1 1 - m.elem 1 0 * m.elem 0 1)
  tmp

/-- The value of the local `det` of the 4x4 `inverse`, as a function of `m`:
`m[0] * tmp[0] + m[1] * tmp[4] + m[2] * tmp[8] + m[3] * tmp[12]`. -/
def inverse_4x4_det [Zero T] [Add T] [Sub T] [Mul T] [Neg T] (m : Matrix T 4 4) : T :=
  let tmp := inverse_4x4_tmp m
  m.idx 0 * tmp.idx 0 + m.idx 1 * tmp.idx 4 + m.idx 2 * tmp.idx 8 + m.idx 3 * tmp.idx 12

/-! ## Further members of `Matrix` -/

namespace Matrix

/-- `T squared_norm() const`: the range-based loop visits the buffer cells in order. -/
def squared_norm [Zero T] [Add T] [Mul T] (m : Matrix T Rows Cols) : T :=
  (List.ofFn m.data).foldl (fun sum v => sum + v * v) 0

/-- `template<size_t N, size_t M = 1> Matrix<T, N, M> get(size_t i_0 = 0, size_t j_0 = 0) const`.
The source reads `(*this)(i + i_0, j + j_0)` without bounds checking; the block is
required to lie inside the matrix (`hN`, `hM`). -/
def get [Zero T] (m : Matrix T Rows Cols) (N M : Nat) (i_0 j_0 : Nat)
    (hN : N + i_0 ≤ Rows) (hM : M + j_0 ≤ Cols) : Matrix T N M :=
  Fin.foldl M (fun res j =>
    Fin.foldl N (fun res i =>
      res.set i j (m.elem ⟨i + i_0, Nat.lt_of_lt_of_le (Nat.add_lt_add_right i.isLt i_0) hN⟩
        ⟨j + j_0, Nat.lt_of_lt_of_le (Nat.add_lt_add_right j.isLt j_0) hM⟩)) res)
    (zero T N M)

/-- `Matrix<T, Rows+1, 1> extend() const`. -/
def extend [Zero T] [One T] (m : Matrix T Rows Cols) : Except Error (Matrix T (Rows + 1) 1) :=
  if h : Cols ≠ 1 then
    throw (Error.logic_error "Cols != 1")
  else
    let res := zero T (Rows + 1) 1
    let res := Fin.foldl Rows (fun res i =>
      res.setIdx i (m.idx ⟨i, by rw [not_not.mp h, Nat.mul_one]; exact i.isLt⟩)) res
    let res := res.setIdx Rows 1
    pure res

/-- `Matrix<T, Rows-1, 1> project() const`. The row count is written `n + 1`, so that
`Rows - 1` is `n` and `data[Rows-1]` is a cell of the buffer (a matrix without rows has
no `data[Rows-1]`). -/
def project [Zero T] [One T] [Mul T] [Div T] {n : Nat} (m : Matrix T (n + 1) Cols) :
    Except Error (Matrix T n 1) :=
  if h : Cols ≠ 1 then
    throw (Error.logic_error "Cols != 1")
  else
    pure ((m.get n 1 0 0 (Nat.le_succ n) (by rw [not_not.mp h])).mulScalar
      ((1 : T) / m.idx ⟨n, by rw [not_not.mp h, Nat.mul_one]; exact Nat.lt_succ_self n⟩))

/-- `T dot(const Matrix& B) const`. -/
def dot [Zero T] [Add T] [Mul T] (m B : Matrix T Rows Cols) : T :=
  Fin.foldl (Rows * Cols) (fun res i => res + m.idx i * B.idx i) 0

/-- `Matrix& operator/=(const T& value)`: the returned value is the updated `*this`. -/
def divAssignScalar [Div T] (m : Matrix T Rows Cols) (value : T) : Matrix T Rows Cols :=
  Fin.foldl (Rows * Cols) (fun self i => self.setIdx i (self.idx i / value)) m

/-- `Matrix operator/(const T& value) const { Matrix C = *this; C /= value; return C; }`. -/
def divScalar [Div T] (m : Matrix T Rows Cols) (value : T) : Matrix T Rows Cols :=
  m.divAssignScalar value

/-- `Matrix& operator+=(const Matrix& B)`: the returned value is the updated `*this`. -/
def addAssign [Add T] (m B : Matrix T Rows Cols) : Matrix T Rows Cols :=
  Fin.foldl (Rows * Cols) (fun self i => self.setIdx i (self.idx i + B.idx i)) m

/-- `Matrix operator+(const Matrix& B) const { Matrix C = *this; C += B; return C; }`. -/
def add [Add T] (m B : Matrix T Rows Cols) : Matrix T Rows Cols :=
  m.addAssign B

/-- `Matrix& operator-=(const Matrix& B)`: the returned value is the updated `*this`. -/
def subAssign [Sub T] (m B : Matrix T Rows Cols) : Matrix T Rows Cols :=
  Fin.foldl (Rows * Cols) (fun self i => self.setIdx i (self.idx i - B.idx i)) m

/-- `Matrix operator-(const Matrix& B) const { Matrix C = *this; C -= B; return C; }`. -/
def sub [Sub T] (m B : Matrix T Rows Cols) : Matrix T Rows Cols :=
  m.subAssign B

/-- `std::ostream& print(std::ostream& out, const std::string& name)`. The stream is
the text written to it so far, `fmt` is the scalar type's `operator<<`, and
`std::endl` writes a newline. -/
def print (fmt : T → String) (m : Matrix T Rows Cols) (out : String) (name : String) : String :=
  let out := out ++ name ++ " = [" ++ "\n"
  let out := Fin.foldl Rows (fun out i =>
    let out := if i.val > 0 then out ++ "," ++ "\n" else out
    let out := out ++ "["
    let out := Fin.foldl Cols (fun out j =>
      let out := if j.val > 0 then out ++ ", " else out
      out ++ fmt (m.elem i j)) out
    out ++ "]") out
  out ++ "]" ++ "\n"

end Matrix

/-- The call `math::inverse<T>(*this)` in the member `inverse()`: the overload is
chosen at compile time from the static shape, the overload for a fixed size being
more specialized than the generic template. -/
def inverse_dispatch [Zero T] [One T] [Add T] [Sub T] [Mul T] [Neg T] [Div T] [DecidableEq T] :
    (Rows Cols : Nat) → Matrix T Rows Cols → Except Error (Matrix T Rows Cols)
  | 1, 1, m => inverse_1x1 m
  | 2, 2, m => inverse_2x2 m
  | 3, 3, m => inverse_3x3 m
  | 4, 4, m => inverse_4x4 m
  | _, _, m => math.inverse m

/-- The member `Matrix inverse() const`. -/
def Matrix.inverse [Zero T] [One T] [Add T] [Sub T] [Mul T] [Neg T] [Div T] [DecidableEq T]
    (m : Matrix T Rows Cols) : Except Error (Matrix T Rows Cols) :=
  if Rows ≠ Cols then
    throw (Error.logic_error "Rows != Cols")
  else
    inverse_dispatch Rows Cols m

/-! ## Integer scalars -/

/-- A C++ signed integer scalar type in exact arithmetic (no overflow): the integers,
whose `/` truncates toward zero. -/
def CInt : Type := Int

instance CInt.instCommRing : CommRing CInt := inferInstanceAs (CommRing Int)

instance CInt.instDecidableEq : DecidableEq CInt := inferInstanceAs (DecidableEq Int)

instance CInt.instDiv : Div CInt := ⟨Int.tdiv⟩

/-- The integer a scalar of type `CInt` stands for. -/
def CInt.toInt (x : CInt) : Int := x

/-! ## Reference notions the library is compared with -/

/-- The standard mathematical matrix product, entry by entry: entry `(i, j)` of
the product of a `Rows × Cols` and a `Cols × N` matrix is the sum over `k` in
`[0, Cols)` of `A(i, k) * B(k, j)`. -/
def matrixProduct [Semiring T] (A : Matrix T Rows Cols) (B : Matrix T Cols N)
    (i : Fin Rows) (j : Fin N) : T :=
  ∑ k : Fin Cols, A.elem i k * B.elem k j

/-- The rows of a matrix as text, joined: each row is '[' + its elements joined by
", " + ']', and the rows are joined by a comma and a newline. `fmt` renders a scalar. -/
def rowsJoined (fmt : T → String) (m : Matrix T Rows Cols) : String :=
  String.intercalate ",\n"
    (List.ofFn fun i => "[" ++ String.intercalate ", " (List.ofFn fun j => fmt (m.elem i j)) ++ "]")

/-- The rendering of a matrix as nested bracketed rows, in the words of the
specification: '[' + the rows joined by ",\n" + ']'. -/
def rendering (fmt : T → String) (m : Matrix T Rows Cols) : String :=
  "[" ++ rowsJoined fmt m ++ "]"

/-! ## Concrete inputs -/

/-- The 1x1 matrix `[2]` over the rationals. -/
def two_1x1 : Matrix ℚ 1 1 := ⟨![2]⟩

/-- The matrix `[[2, 0], [0, 2]]` over the rationals (buffer in column-major order). -/
def diag2_2x2 : Matrix ℚ 2 2 := ⟨![2, 0, 0, 2]⟩

/-- The matrix `[[1/2, 0], [0, 1/2]]` over the rationals. -/
def half_2x2 : Matrix ℚ 2 2 := ⟨![1 / 2, 0, 0, 1 / 2]⟩

/-- The matrix `[[1, 1], [1, 1]]`, over any scalar type with a one. -/
def ones_2x2 (T : Type) [One T] : Matrix T 2 2 := ⟨fun _ => 1⟩

/-- The matrix `[[1, 0, 0], [1, 2, 0], [1, 5, 3]]` over the rationals, determinant 6
(buffer in column-major order). -/
def sample_3x3 : Matrix ℚ 3 3 := ⟨![1, 1, 1, 0, 2, 5, 0, 0, 3]⟩

/-- The matrix `[[2, 1, 0, 0], [0, 2, 0, 0], [0, 0, 1, 1], [0, 0, 3, 1]]` over the
rationals, determinant -8 (buffer in column-major order). -/
def sample_4x4 : Matrix ℚ 4 4 := ⟨![2, 0, 0, 0, 1, 2, 0, 0, 0, 0, 1, 3, 0, 0, 1, 1]⟩

/-- The column vector `(4, 2)` over the integers with truncating division. -/
def vec42_int : Matrix CInt 2 1 := ⟨![4, 2]⟩

/-- The column vector `(4, 2)` over the rationals. -/
def vec42_rat : Matrix ℚ 2 1 := ⟨![4, 2]⟩

/-- The matrix `[[2, 0], [0, 2]]` over the integers with truncating division. -/
def diag2_int : Matrix CInt 2 2 := ⟨![2, 0, 0, 2]⟩

/-- The matrix `[[1, 3], [0, -1]]` over the integers with truncating division,
determinant -1 (buffer in column-major order). -/
def shear_int : Matrix CInt 2 2 := ⟨![1, 0, 3, -1]⟩

/-- The matrix `[[2, 0, 0], [0, 1, 0], [0, 0, 1]]` over the integers, determinant 2. -/
def scale_3x3_int : Matrix CInt 3 3 := ⟨![2, 0, 0, 0, 1, 0, 0, 0, 1]⟩

/-- The matrix `[[1, 2, 3], [0, 1, 4], [0, 0, 1]]` over the integers, determinant 1
(buffer in column-major order). -/
def unit_3x3_int : Matrix CInt 3 3 := ⟨![1, 0, 0, 2, 1, 0, 3, 4, 1]⟩

/-- The matrix `diag(3, 1, 1, 1)` over the integers, determinant 3. -/
def scale_4x4_int : Matrix CInt 4 4 := ⟨![3, 0, 0, 0, 0, 1, 0, 0, 0, 0, 1, 0, 0, 0, 0, 1]⟩

/-- The matrix `[[1, 2, 0, 5], [0, 1, 3, 0], [0, 0, 1, 4], [0, 0, 0, -1]]` over the
integers, determinant -1 (buffer in column-major order). -/
def unit_4x4_int : Matrix CInt 4 4 := ⟨![1, 0, 0, 0, 2, 1, 0, 0, 0, 3, 1, 0, 5, 0, 4, -1]⟩

/-! ## Loops as folds: which cell a loop writes -/

/-- A loop none of whose iterations changes an observation leaves it unchanged. -/
theorem foldl_untouched {S ι α : Type} (step : S → ι → S) (obs : S → α) (l : List ι)
    (h : ∀ x ∈ l, ∀ s, obs (step s x) = obs s) (s : S) :
    obs (l.foldl step s) = obs s := by
  induction l generalizing s with
  | nil => rfl
  | cons a t ih =>
    rw [List.foldl_cons, ih (fun x hx => h x (List.mem_cons_of_mem a hx)), h a (List.mem_cons_self a t)]

/-- A loop in which exactly one iteration `x` changes an observation, by `g`,
changes it by `g`. -/
theorem foldl_touched {S ι α : Type} (step : S → ι → S) (obs : S → α) (l : List ι)
    (hl : l.Nodup) (x : ι) (hx : x ∈ l) (g : α → α)
    (hstep : ∀ s, obs (step s x) = g (obs s))
    (hother : ∀ y ∈ l, y ≠ x → ∀ s, obs (step s y) = obs s) (s : S) :
    obs (l.foldl step s) = g (obs s) := by
  induction l generalizing s with
  | nil => cases hx
  | cons a t ih =>
    rw [List.foldl_cons]
    rw [List.nodup_cons] at hl
    by_cases hax : a = x
    · subst hax
      rw [foldl_untouched step obs t _ (step s a), hstep]
      intro y hy
      exact hother y (List.mem_cons_of_mem a hy) (fun e => hl.1 (e ▸ hy))
    · have hxt : x ∈ t := by
        rcases List.mem_cons.mp hx with e | e
        · exact absurd e.symm hax
        · exact e
      rw [ih hl.2 hxt (fun y hy => hother y (List.mem_cons_of_mem a hy)),
        hother a (List.mem_cons_self a t) hax]

/-- The `for (i = 0; i < n; ++i)` form of `foldl_untouched`. -/
theorem loop_untouched {S α : Type} {n : Nat} (step : S → Fin n → S) (obs : S → α)
    (h : ∀ x s, obs (step s x) = obs s) (s : S) :
    obs (Fin.foldl n step s) = obs s := by
  rw [Fin.foldl_eq_foldl_finRange]
  exact foldl_untouched step obs _ (fun x _ => h x) s

/-- The `for (i = 0; i < n; ++i)` form of `foldl_touched`. -/
theorem loop_touched {S α : Type} {n : Nat} (step : S → Fin n → S) (obs : S → α)
    (x : Fin n) (g : α → α) (hstep : ∀ s, obs (step s x) = g (obs s))
    (hother : ∀ y, y ≠ x → ∀ s, obs (step s y) = obs s) (s : S) :
    obs (Fin.foldl n step s) = g (obs s) := by
  rw [Fin.foldl_eq_foldl_finRange]
  exact foldl_touched step obs _ (List.nodup_finRange n) x (List.mem_finRange x) g hstep
    (fun y _ => hother y) s

namespace Matrix

variable {T : Type} {Rows Cols N : Nat}

/-- The column-major offset of a valid position lies inside the buffer. -/
theorem offset_lt {Rows Cols i j : Nat} (hi : i < Rows) (hj : j < Cols) :
    j * Rows + i < Rows * Cols := by
  calc j * Rows + i < j * Rows + Rows := Nat.add_lt_add_left hi _
    _ = Rows * (j + 1) := by ring
    _ ≤ Rows * Cols := Nat.mul_le_mul_left Rows hj

@[ext]
theorem ext_data {A B : Matrix T Rows Cols} (h : ∀ k, A.data k = B.data k) : A = B := by
  cases A; cases B; congr; exact funext h

/-- Column-major offsets of valid positions determine the position. -/
theorem offset_inj {Rows i j i' j' : Nat} (hi : i < Rows) (hi' : i' < Rows)
    (h : j * Rows + i = j' * Rows + i') : i = i' ∧ j = j' := by
  have h1 : (j * Rows + i) % Rows = i := by
    rw [Nat.add_comm, Nat.add_mul_mod_self_right, Nat.mod_eq_of_lt hi]
  have h2 : (j' * Rows + i') % Rows = i' := by
    rw [Nat.add_comm, Nat.add_mul_mod_self_right, Nat.mod_eq_of_lt hi']
  have hii : i = i' := by rw [← h1, ← h2, h]
  refine ⟨hii, ?_⟩
  subst hii
  have hpos : 0 < Rows := Nat.lt_of_le_of_lt (Nat.zero_le _) hi
  exact Nat.eq_of_mul_eq_mul_right hpos (Nat.add_right_cancel h)

/-- Every buffer offset is the offset of a position of the matrix. -/
theorem exists_pos (k : Fin (Rows * Cols)) :
    ∃ (i : Fin Rows) (j : Fin Cols), k.val = j.val * Rows + i.val := by
  have hpos : 0 < Rows := by
    rcases Nat.eq_zero_or_pos Rows with h | h
    · exact absurd k.isLt (by simp [h])
    · exact h
  refine ⟨⟨k.val % Rows, Nat.mod_lt _ hpos⟩, ⟨k.val / Rows, ?_⟩, ?_⟩
  · exact Nat.div_lt_of_lt_mul k.isLt
  · exact (Nat.div_add_mod' k.val Rows).symm

/-- Two matrices with the same elements at all positions are equal. -/
theorem ext_elem {A B : Matrix T Rows Cols} (h : ∀ i j, A.elem i j = B.elem i j) : A = B := by
  apply ext_data
  intro k
  obtain ⟨i, j, hk⟩ := exists_pos k
  have := h i j
  simp only [elem] at this
  have hk' : k = ⟨j.val * Rows + i.val, offset_lt i.isLt j.isLt⟩ := Fin.ext hk
  rw [hk']
  exact this

@[simp]
theorem zero_elem [Zero T] (i : Fin Rows) (j : Fin Cols) : (zero T Rows Cols).elem i j = 0 := rfl

theorem elem_set (m : Matrix T Rows Cols) (i' : Fin Rows) (j' : Fin Cols) (v : T)
    (i : Fin Rows) (j : Fin Cols) :
    (m.set i' j' v).elem i j = if i = i' ∧ j = j' then v else m.elem i j := by
  simp only [elem, set]
  by_cases h : j.val * Rows + i.val = j'.val * Rows + i'.val
  · obtain ⟨h1, h2⟩ := offset_inj i.isLt i'.isLt h
    rw [if_pos h, if_pos ⟨Fin.ext h1, Fin.ext h2⟩]
  · rw [if_neg h, if_neg]
    rintro ⟨h1, h2⟩
    exact h (by rw [h1, h2])

theorem elem_set_self (m : Matrix T Rows Cols) (i : Fin Rows) (j : Fin Cols) (v : T) :
    (m.set i j v).elem i j = v := by
  rw [elem_set, if_pos ⟨rfl, rfl⟩]

theorem elem_set_ne (m : Matrix T Rows Cols) (i' : Fin Rows) (j' : Fin Cols) (v : T)
    (i : Fin Rows) (j : Fin Cols) (h : ¬ (i = i' ∧ j = j')) :
    (m.set i' j' v).elem i j = m.elem i j := by
  rw [elem_set, if_neg h]

theorem set_set (m : Matrix T Rows Cols) (i j : Nat) (v w : T) :
    (m.set i j v).set i j w = m.set i j w := by
  apply ext_data
  intro k
  simp only [set]
  split <;> rfl

theorem set_elem_self (m : Matrix T Rows Cols) (i : Fin Rows) (j : Fin Cols) :
    m.set i j (m.elem i j) = m := by
  apply ext_data
  intro k
  simp only [set, elem]
  split
  · next h => exact congrArg m.data (Fin.ext h.symm)
  · rfl

/-! ## What each loop of the library computes -/

theorem data_setIdx (m : Matrix T Rows Cols) (i : Nat) (v : T) (k : Fin (Rows * Cols)) :
    (m.setIdx i v).data k = if k.val = i then v else m.data k := rfl

/-- `operator*=(const T&)` multiplies every buffer cell by `value`, on the right. -/
theorem mulAssignScalar_data [Mul T] (m : Matrix T Rows Cols) (value : T)
    (k : Fin (Rows * Cols)) : (m.mulAssignScalar value).data k = m.data k * value := by
  unfold mulAssignScalar
  refine loop_touched _ (fun s : Matrix T Rows Cols => s.data k) k (fun old => old * value) ?_ ?_ m
  · intro s
    simp [data_setIdx, idx]
  · intro y hy s
    have : ¬ (k.val = y.val) := fun e => hy (Fin.ext e.symm)
    simp [data_setIdx, this]

theorem mulScalar_data [Mul T] (m : Matrix T Rows Cols) (value : T) (k : Fin (Rows * Cols)) :
    (m.mulScalar value).data k = m.data k * value :=
  mulAssignScalar_data m value k

theorem mulScalar_elem [Mul T] (m : Matrix T Rows Cols) (value : T) (i : Fin Rows)
    (j : Fin Cols) : (m.mulScalar value).elem i j = m.elem i j * value :=
  mulScalar_data m value _

/-- The innermost loop of `operator*`: the cell `(i, j)` accumulates the terms in order. -/
theorem mul_inner [Semiring T] (i : Fin Rows) (j : Fin N) :
    ∀ (n : Nat) (f : Fin n → T) (C : Matrix T Rows N),
      Fin.foldl n (fun C k => C.set i j (C.elem i j + f k)) C
        = C.set i j (C.elem i j + ∑ k, f k) := by
  intro n
  induction n with
  | zero =>
    intro f C
    simp [Fin.foldl_zero, set_elem_self]
  | succ n ih =>
    intro f C
    rw [Fin.foldl_succ_last, ih (fun k => f k.castSucc) C, elem_set_self, set_set,
      Fin.sum_univ_castSucc, add_assoc]

/-- Element `(i, j)` of `A * B` is the sum over `k` of `A(i, k) * B(k, j)`. -/
theorem mul_elem [Semiring T] (A : Matrix T Rows Cols) (B : Matrix T Cols N)
    (i : Fin Rows) (j : Fin N) :
    (A.mul B).elem i j = ∑ k, A.elem i k * B.elem k j := by
  unfold mul
  simp only [mul_inner]
  have hmid : ∀ (i' : Fin Rows) (C : Matrix T Rows N),
      (Fin.foldl N (fun C j' => C.set i' j' (C.elem i' j' + ∑ k, A.elem i' k * B.elem k j')) C).elem i j
        = if i' = i then C.elem i j + ∑ k, A.elem i k * B.elem k j else C.elem i j := by
    intro i' C
    by_cases hi : i' = i
    · subst hi
      rw [if_pos rfl]
      refine loop_touched _ (fun s : Matrix T Rows N => s.elem i' j) j
        (fun old => old + ∑ k, A.elem i' k * B.elem k j) ?_ ?_ C
      · intro s
        simp only [mul_inner, elem_set_self]
      · intro y hy s
        simp only [mul_inner]
        exact elem_set_ne _ _ _ _ _ _ (fun h => hy h.2.symm)
    · rw [if_neg hi]
      refine loop_untouched _ (fun s : Matrix T Rows N => s.elem i j) ?_ C
      intro y s
      simp only [mul_inner]
      exact elem_set_ne _ _ _ _ _ _ (fun h => hi h.1.symm)
  have := loop_touched
    (fun (C : Matrix T Rows N) (i' : Fin Rows) =>
      Fin.foldl N (fun C j' => C.set i' j' (C.elem i' j' + ∑ k, A.elem i' k * B.elem k j')) C)
    (fun s : Matrix T Rows N => s.elem i j) i
    (fun old => old + ∑ k, A.elem i k * B.elem k j)
    (fun s => by simp only [mul_inner, hmid, if_pos])
    (fun y hy s => by simp only [mul_inner, hmid, if_neg hy])
    (zero T Rows N)
  simp only [mul_inner, zero_elem, zero_add] at this
  exact this

/-- Element `(j, i)` of the transpose is element `(i, j)` of the matrix. -/
theorem transpose_elem [Zero T] (m : Matrix T Rows Cols) (j : Fin Cols) (i : Fin Rows) :
    m.transpose.elem j i = m.elem i j := by
  unfold transpose
  refine loop_touched _ (fun s : Matrix T Cols Rows => s.elem j i) j (fun _ => m.elem i j) ?_ ?_ _
  · intro s
    refine loop_touched _ (fun s : Matrix T Cols Rows => s.elem j i) i (fun _ => m.elem i j) ?_ ?_ _
    · intro s
      exact elem_set_self _ _ _ _
    · intro y hy s
      exact elem_set_ne _ _ _ _ _ _ (fun h => hy h.2.symm)
  · intro y hy s
    refine loop_untouched _ (fun s : Matrix T Cols Rows => s.elem j i) ?_ _
    intro x s
    exact elem_set_ne _ _ _ _ _ _ (fun h => hy h.1.symm)

/-- The loop of `Identity()` on a square shape: 1 on the diagonal, 0 elsewhere. -/
theorem identity_loop_elem [Zero T] [One T] (i j : Fin Rows) :
    (Fin.foldl Rows (fun res i => res.set i i (1 : T)) (zero T Rows Rows)).elem i j
      = if i = j then 1 else 0 := by
  by_cases h : i = j
  · subst h
    rw [if_pos rfl]
    refine loop_touched _ (fun s : Matrix T Rows Rows => s.elem i i) i (fun _ => (1 : T)) ?_ ?_ _
    · intro s
      exact elem_set_self _ _ _ _
    · intro y hy s
      exact elem_set_ne _ _ _ _ _ _ (fun h => hy h.1.symm)
  · rw [if_neg h]
    refine loop_untouched _ (fun s : Matrix T Rows Rows => s.elem i j) ?_ _
    intro y s
    exact elem_set_ne _ _ _ _ _ _ (fun e => h (e.1.trans e.2.symm))

theorem Identity_square [Zero T] [One T] (n : Nat) :
    Identity T n n = Except.ok (Fin.foldl n (fun res i => res.set i i (1 : T)) (zero T n n)) := by
  simp [Identity, pure, Except.pure]

/-- One step of the list constructor's loop: the `i`-th value goes to position
`(i / Cols, i % Cols)`, that is, to the position whose row-major rank is `i`. -/
theorem elem_set_div_mod (m : Matrix T Rows Cols) (n : Nat) (hn : n < Rows * Cols) (v : T)
    (i : Fin Rows) (j : Fin Cols) :
    (m.set (n / Cols) (n % Cols) v).elem i j
      = if n = i.val * Cols + j.val then v else m.elem i j := by
  have hdiv : n / Cols < Rows := Nat.div_lt_of_lt_mul (by rw [Nat.mul_comm]; exact hn)
  simp only [elem, set]
  by_cases h : n = i.val * Cols + j.val
  · have h1 : n / Cols = i.val := by
      rw [h, Nat.add_comm, Nat.add_mul_div_right _ _ (Nat.lt_of_le_of_lt (Nat.zero_le _) j.isLt),
        Nat.div_eq_of_lt j.isLt, Nat.zero_add]
    have h2 : n % Cols = j.val := by
      rw [h, Nat.add_comm, Nat.add_mul_mod_self_right, Nat.mod_eq_of_lt j.isLt]
    rw [if_pos h, if_pos (by rw [h1, h2])]
  · rw [if_neg h, if_neg]
    intro e
    obtain ⟨e1, e2⟩ := offset_inj i.isLt hdiv e
    apply h
    rw [e1, e2]
    exact (Nat.div_add_mod' n Cols).symm

/-- The state of the list constructor's loop, a matrix and the counter `i`. -/
theorem ofList_loop_untouched (l : List T) :
    ∀ (M : Matrix T Rows Cols) (c : Nat) (i : Fin Rows) (j : Fin Cols),
      c + l.length ≤ Rows * Cols →
      (i.val * Cols + j.val < c ∨ c + l.length ≤ i.val * Cols + j.val) →
      (l.foldl (fun (st : Matrix T Rows Cols × Nat) v =>
          (st.1.set (st.2 / Cols) (st.2 % Cols) v, st.2 + 1)) (M, c)).1.elem i j
        = M.elem i j := by
  induction l with
  | nil => intro M c i j _ _; rfl
  | cons v t ih =>
    intro M c i j hc h
    simp only [List.length_cons] at hc h
    rw [List.foldl_cons, ih _ _ i j (by omega) (by omega),
      elem_set_div_mod _ _ (by omega), if_neg (by omega)]

theorem ofList_loop_elem (l : List T) :
    ∀ (M : Matrix T Rows Cols) (c : Nat) (i : Fin Rows) (j : Fin Cols),
      c + l.length ≤ Rows * Cols →
      c ≤ i.val * Cols + j.val → i.val * Cols + j.val < c + l.length →
      l[i.val * Cols + j.val - c]? = some
        ((l.foldl (fun (st : Matrix T Rows Cols × Nat) v =>
          (st.1.set (st.2 / Cols) (st.2 % Cols) v, st.2 + 1)) (M, c)).1.elem i j) := by
  induction l with
  | nil => intro M c i j _ h1 h2; simp only [List.length_nil] at h2; omega
  | cons v t ih =>
    intro M c i j hc h1 h2
    simp only [List.length_cons] at hc h2
    rw [List.foldl_cons]
    by_cases hn : c = i.val * Cols + j.val
    · rw [ofList_loop_untouched t _ _ i j (by omega) (Or.inl (by omega)),
        elem_set_div_mod _ _ (by omega), if_pos hn, ← hn, Nat.sub_self]
      exact List.getElem?_cons_zero
    · have hsub : i.val * Cols + j.val - c = (i.val * Cols + j.val - (c + 1)) + 1 := by omega
      rw [hsub, List.getElem?_cons_succ]
      exact ih _ _ i j (by omega) (by omega) (by omega)

/-- An inverse obtained from an adjugate: if `tmp` multiplies `A` to `D` times the
identity on both sides and `D` is nonzero, then `tmp * (1 / D)` multiplies `A` to
what `Identity()` returns, on both sides. -/
theorem scaled_adjugate [Field T] {n : Nat} (A tmp : Matrix T n n) (D : T) (hD : D ≠ 0)
    (hr : ∀ i j, ∑ k, A.elem i k * tmp.elem k j = if i = j then D else 0)
    (hl : ∀ i j, ∑ k, tmp.elem i k * A.elem k j = if i = j then D else 0) :
    Identity T n n = Except.ok (A.mul (tmp.mulScalar ((1 : T) / D))) ∧
    Identity T n n = Except.ok ((tmp.mulScalar ((1 : T) / D)).mul A) := by
  rw [Identity_square]
  constructor
  · congr 1
    apply ext_elem
    intro i j
    rw [identity_loop_elem, mul_elem]
    simp only [mulScalar_elem, ← mul_assoc]
    rw [← Finset.sum_mul, hr]
    split_ifs
    · field_simp
    · simp
  · congr 1
    apply ext_elem
    intro i j
    rw [identity_loop_elem, mul_elem]
    simp only [mulScalar_elem, mul_right_comm _ ((1 : T) / D) _]
    rw [← Finset.sum_mul, hl]
    split_ifs
    · field_simp
    · simp

end Matrix

/-! ## The closed-form inverses -/

theorem inverse_2x2_unfold [Field T] [DecidableEq T] (m : Matrix T 2 2) :
    inverse_2x2 m = if inverse_2x2_det m = 0 then
        Except.error (Error.runtime_error "inverse(): determinant = 0")
      else Except.ok ((inverse_2x2_tmp m).mulScalar ((1 : T) / inverse_2x2_det m)) := rfl

theorem inverse_3x3_unfold [Field T] [DecidableEq T] (m : Matrix T 3 3) :
    inverse_3x3 m = if inverse_3x3_det m = 0 then
        Except.error (Error.runtime_error "inverse(): determinant = 0")
      else Except.ok ((inverse_3x3_tmp m).mulScalar ((1 : T) / inverse_3x3_det m)) := rfl

theorem inverse_4x4_unfold [Field T] [DecidableEq T] (m : Matrix T 4 4) :
    inverse_4x4 m = if inverse_4x4_det m = 0 then
        Except.error (Error.runtime_error "inverse(): determinant = 0")
      else Except.ok ((inverse_4x4_tmp m).mulScalar ((1 : T) / inverse_4x4_det m)) := rfl

/-- The content of `tmp` in the 2x2 `inverse`. -/
theorem inverse_2x2_tmp_elem [Zero T] [Neg T] (m : Matrix T 2 2) :
    (inverse_2x2_tmp m).elem 0 0 = m.elem 1 1 ∧ (inverse_2x2_tmp m).elem 1 0 = -m.elem 1 0 ∧
    (inverse_2x2_tmp m).elem 0 1 = -m.elem 0 1 ∧ (inverse_2x2_tmp m).elem 1 1 = m.elem 0 0 :=
  ⟨rfl, rfl, rfl, rfl⟩

/-- The content of `tmp` in the 3x3 `inverse`. -/
theorem inverse_3x3_tmp_elem [Zero T] [Sub T] [Mul T] (m : Matrix T 3 3) :
    (inverse_3x3_tmp m).elem 0 0 = m.elem 1 1 * m.elem 2 2 - m.elem 2 1 * m.elem 1 2 ∧
    (inverse_3x3_tmp m).elem 0 1 = m.elem 0 2 * m.elem 2 1 - m.elem 0 1 * m.elem 2 2 ∧
    (inverse_3x3_tmp m).elem 0 2 = m.elem 0 1 * m.elem 1 2 - m.elem 0 2 * m.elem 1 1 ∧
    (inverse_3x3_tmp m).elem 1 0 = m.elem 1 2 * m.elem 2 0 - m.elem 1 0 * m.elem 2 2 ∧
    (inverse_3x3_tmp m).elem 1 1 = m.elem 0 0 * m.elem 2 2 - m.elem 0 2 * m.elem 2 0 ∧
    (inverse_3x3_tmp m).elem 1 2 = m.elem 1 0 * m.elem 0 2 - m.elem 0 0 * m.elem 1 2 ∧
    (inverse_3x3_tmp m).elem 2 0 = m.elem 1 0 * m.elem 2 1 - m.elem 2 0 * m.elem 1 1 ∧
    (inverse_3x3_tmp m).elem 2 1 = m.elem 2 0 * m.elem 0 1 - m.elem 0 0 * m.elem 2 1 ∧
    (inverse_3x3_tmp m).elem 2 2 = m.elem 0 0 * m.elem 1 1 - m.elem 1 0 * m.elem 0 1 :=
  ⟨rfl, rfl, rfl, rfl, rfl, rfl, rfl, rfl, rfl⟩

/-- On a 4x4 matrix, `operator()(i, j)` is `operator[](j * 4 + i)`. -/
theorem elem_4x4 (m : Matrix T 4 4) :
    m.elem 0 0 = m.idx 0 ∧ m.elem 0 1 = m.idx 4 ∧ m.elem 0 2 = m.idx 8 ∧ m.elem 0 3 = m.idx 12 ∧
    m.elem 1 0 = m.idx 1 ∧ m.elem 1 1 = m.idx 5 ∧ m.elem 1 2 = m.idx 9 ∧ m.elem 1 3 = m.idx 13 ∧
    m.elem 2 0 = m.idx 2 ∧ m.elem 2 1 = m.idx 6 ∧ m.elem 2 2 = m.idx 10 ∧ m.elem 2 3 = m.idx 14 ∧
    m.elem 3 0 = m.idx 3 ∧ m.elem 3 1 = m.idx 7 ∧ m.elem 3 2 = m.idx 11 ∧ m.elem 3 3 = m.idx 15 :=
  ⟨rfl, rfl, rfl, rfl, rfl, rfl, rfl, rfl, rfl, rfl, rfl, rfl, rfl, rfl, rfl, rfl⟩

/-- The content of `tmp` in the 4x4 `inverse`, cell by cell. -/
theorem inverse_4x4_tmp_idx [Zero T] [Add T] [Sub T] [Mul T] [Neg T] (m : Matrix T 4 4) :
    (inverse_4x4_tmp m).idx 0 =
      m.idx 5 * m.idx 10 * m.idx 15 - m.idx 5 * m.idx 11 * m.idx 14 - m.idx 9 * m.idx 6 * m.idx 15
      + m.idx 9 * m.idx 7 * m.idx 14 + m.idx 13 * m.idx 6 * m.idx 11 - m.idx 13 * m.idx 7 * m.idx 10 ∧
    (inverse_4x4_tmp m).idx 1 =
      (-m.idx 1) * m.idx 10 * m.idx 15 + m.idx 1 * m.idx 11 * m.idx 14 + m.idx 9 * m.idx 2 * m.idx 15
      - m.idx 9 * m.idx 3 * m.idx 14 - m.idx 13 * m.idx 2 * m.idx 11 + m.idx 13 * m.idx 3 * m.idx 10 ∧
    (inverse_4x4_tmp m).idx 2 =
      m.idx 1 * m.idx 6 * m.idx 15 - m.idx 1 * m.idx 7 * m.idx 14 - m.idx 5 * m.idx 2 * m.idx 15
      + m.idx 5 * m.idx 3 * m.idx 14 + m.idx 13 * m.idx 2 * m.idx 7 - m.idx 13 * m.idx 3 * m.idx 6 ∧
    (inverse_4x4_tmp m).idx 3 =
      (-m.idx 1) * m.idx 6 * m.idx 11 + m.idx 1 * m.idx 7 * m.idx 10 + m.idx 5 * m.idx 2 * m.idx 11
      - m.idx 5 * m.idx 3 * m.idx 10 - m.idx 9 * m.idx 2 * m.idx 7 + m.idx 9 * m.idx 3 * m.idx 6 ∧
    (inverse_4x4_tmp m).idx 4 =
      (-m.idx 4) * m.idx 10 * m.idx 15 + m.idx 4 * m.idx 11 * m.idx 14 + m.idx 8 * m.idx 6 * m.idx 15
      - m.idx 8 * m.idx 7 * m.idx 14 - m.idx 12 * m.idx 6 * m.idx 11 + m.idx 12 * m.idx 7 * m.idx 10 ∧
    (inverse_4x4_tmp m).idx 5 =
      m.idx 0 * m.idx 10 * m.idx 15 - m.idx 0 * m.idx 11 * m.idx 14 - m.idx 8 * m.idx 2 * m.idx 15
      + m.idx 8 * m.idx 3 * m.idx 14 + m.idx 12 * m.idx 2 * m.idx 11 - m.idx 12 * m.idx 3 * m.idx 10 ∧
    (inverse_4x4_tmp m).idx 6 =
      (-m.idx 0) * m.idx 6 * m.idx 15 + m.idx 0 * m.idx 7 * m.idx 14 + m.idx 4 * m.idx 2 * m.idx 15
      - m.idx 4 * m.idx 3 * m.idx 14 - m.idx 12 * m.idx 2 * m.idx 7 + m.idx 12 * m.idx 3 * m.idx 6 ∧
    (inverse_4x4_tmp m).idx 7 =
      m.idx 0 * m.idx 6 * m.idx 11 - m.idx 0 * m.idx 7 * m.idx 10 - m.idx 4 * m.idx 2 * m.idx 11
      + m.idx 4 * m.idx 3 * m.idx 10 + m.idx 8 * m.idx 2 * m.idx 7 - m.idx 8 * m.idx 3 * m.idx 6 ∧
    (inverse_4x4_tmp m).idx 8 =
      m.idx 4 * m.idx 9 * m.idx 15 - m.idx 4 * m.idx 11 * m.idx 13 - m.idx 8 * m.idx 5 * m.idx 15
      + m.idx 8 * m.idx 7 * m.idx 13 + m.idx 12 * m.idx 5 * m.idx 11 - m.idx 12 * m.idx 7 * m.idx 9 ∧
    (inverse_4x4_tmp m).idx 9 =
      (-m.idx 0) * m.idx 9 * m.idx 15 + m.idx 0 * m.idx 11 * m.idx 13 + m.idx 8 * m.idx 1 * m.idx 15
      - m.idx 8 * m.idx 3 * m.idx 13 - m.idx 12 * m.idx 1 * m.idx 11 + m.idx 12 * m.idx 3 * m.idx 9 ∧
    (inverse_4x4_tmp m).idx 10 =
      m.idx 0 * m.idx 5 * m.idx 15 - m.idx 0 * m.idx 7 * m.idx 13 - m.idx 4 * m.idx 1 * m.idx 15
      + m.idx 4 * m.idx 3 * m.idx 13 + m.idx 12 * m.idx 1 * m.idx 7 - m.idx 12 * m.idx 3 * m.idx 5 ∧
    (inverse_4x4_tmp m).idx 11 =
      (-m.idx 0) * m.idx 5 * m.idx 11 + m.idx 0 * m.idx 7 * m.idx 9 + m.idx 4 * m.idx 1 * m.idx 11
      - m.idx 4 * m.idx 3 * m.idx 9 - m.idx 8 * m.idx 1 * m.idx 7 + m.idx 8 * m.idx 3 * m.idx 5 ∧
    (inverse_4x4_tmp m).idx 12 =
      (-m.idx 4) * m.idx 9 * m.idx 14 + m.idx 4 * m.idx 10 * m.idx 13 + m.idx 8 * m.idx 5 * m.idx 14
      - m.idx 8 * m.idx 6 * m.idx 13 - m.idx 12 * m.idx 5 * m.idx 10 + m.idx 12 * m.idx 6 * m.idx 9 ∧
    (inverse_4x4_tmp m).idx 13 =
      m.idx 0 * m.idx 9 * m.idx 14 - m.idx 0 * m.idx 10 * m.idx 13 - m.idx 8 * m.idx 1 * m.idx 14
      + m.idx 8 * m.idx 2 * m.idx 13 + m.idx 12 * m.idx 1 * m.idx 10 - m.idx 12 * m.idx 2 * m.idx 9 ∧
    (inverse_4x4_tmp m).idx 14 =
      (-m.idx 0) * m.idx 5 * m.idx 14 + m.idx 0 * m.idx 6 * m.idx 13 + m.idx 4 * m.idx 1 * m.idx 14
      - m.idx 4 * m.idx 2 * m.idx 13 - m.idx 12 * m.idx 1 * m.idx 6 + m.idx 12 * m.idx 2 * m.idx 5 ∧
    (inverse_4x4_tmp m).idx 15 =
      m.idx 0 * m.idx 5 * m.idx 10 - m.idx 0 * m.idx 6 * m.idx 9 - m.idx 4 * m.idx 1 * m.idx 10
      + m.idx 4 * m.idx 2 * m.idx 9 + m.idx 8 * m.idx 1 * m.idx 6 - m.idx 8 * m.idx 2 * m.idx 5 :=
  ⟨rfl, rfl, rfl, rfl, rfl, rfl, rfl, rfl, rfl, rfl, rfl, rfl, rfl, rfl, rfl, rfl⟩

theorem adj_2x2_right [CommRing T] (A : Matrix T 2 2) (i j : Fin 2) :
    ∑ k, A.elem i k * (inverse_2x2_tmp A).elem k j = if i = j then inverse_2x2_det A else 0 := by
  rw [Fin.sum_univ_two]
  fin_cases i <;> fin_cases j <;>
    simp only [Fin.zero_eta, Fin.mk_one, Fin.reduceFinMk, Fin.isValue, Fin.reduceEq, if_true, if_false,
      inverse_2x2_tmp_elem, inverse_2x2_det] <;> ring

theorem adj_2x2_left [CommRing T] (A : Matrix T 2 2) (i j : Fin 2) :
    ∑ k, (inverse_2x2_tmp A).elem i k * A.elem k j = if i = j then inverse_2x2_det A else 0 := by
  rw [Fin.sum_univ_two]
  fin_cases i <;> fin_cases j <;>
    simp only [Fin.zero_eta, Fin.mk_one, Fin.reduceFinMk, Fin.isValue, Fin.reduceEq, if_true, if_false,
      inverse_2x2_tmp_elem, inverse_2x2_det] <;> ring

theorem adj_3x3_right [CommRing T] (A : Matrix T 3 3) (i j : Fin 3) :
    ∑ k, A.elem i k * (inverse_3x3_tmp A).elem k j = if i = j then inverse_3x3_det A else 0 := by
  rw [Fin.sum_univ_three]
  fin_cases i <;> fin_cases j <;>
    simp only [Fin.zero_eta, Fin.mk_one, Fin.reduceFinMk, Fin.isValue, Fin.reduceEq, if_true, if_false,
      inverse_3x3_tmp_elem, inverse_3x3_det] <;> ring

theorem adj_3x3_left [CommRing T] (A : Matrix T 3 3) (i j : Fin 3) :
    ∑ k, (inverse_3x3_tmp A).elem i k * A.elem k j = if i = j then inverse_3x3_det A else 0 := by
  rw [Fin.sum_univ_three]
  fin_cases i <;> fin_cases j <;>
    simp only [Fin.zero_eta, Fin.mk_one, Fin.reduceFinMk, Fin.isValue, Fin.reduceEq, if_true, if_false,
      inverse_3x3_tmp_elem, inverse_3x3_det] <;> ring

theorem adj_4x4_right [CommRing T] (A : Matrix T 4 4) (i j : Fin 4) :
    ∑ k, A.elem i k * (inverse_4x4_tmp A).elem k j = if i = j then inverse_4x4_det A else 0 := by
  rw [Fin.sum_univ_four]
  fin_cases i <;> fin_cases j <;>
    simp only [Fin.zero_eta, Fin.mk_one, Fin.reduceFinMk, Fin.isValue, Fin.reduceEq, if_true, if_false,
      elem_4x4, inverse_4x4_tmp_idx, inverse_4x4_det] <;> ring

theorem adj_4x4_left [CommRing T] (A : Matrix T 4 4) (i j : Fin 4) :
    ∑ k, (inverse_4x4_tmp A).elem i k * A.elem k j = if i = j then inverse_4x4_det A else 0 := by
  rw [Fin.sum_univ_four]
  fin_cases i <;> fin_cases j <;>
    simp only [Fin.zero_eta, Fin.mk_one, Fin.reduceFinMk, Fin.isValue, Fin.reduceEq, if_true, if_false,
      elem_4x4, inverse_4x4_tmp_idx, inverse_4x4_det] <;> ring

/-- The 2x2 routine's `det` is the determinant. -/
theorem det_2x2 [CommRing T] (A : Matrix T 2 2) : leibnizDet A.elem = inverse_2x2_det A := by
  simp only [leibnizDet, inverse_2x2_det, Matrix.det_fin_two, Matrix.of_apply]

/-- The 3x3 routine's `det` is the determinant. -/
theorem det_3x3 [CommRing T] (A : Matrix T 3 3) : leibnizDet A.elem = inverse_3x3_det A := by
  simp only [leibnizDet, inverse_3x3_det, Matrix.det_fin_three, Matrix.of_apply]
  ring

/-- Values of `Fin.succAbove`, `Fin.succ` and `Fin.val` used to expand a 4x4
determinant along its first row. -/
theorem fin4_tables :
    (((0 : Fin 4).succAbove (0 : Fin 3) = 1 ∧ (0 : Fin 4).succAbove (1 : Fin 3) = 2 ∧
      (0 : Fin 4).succAbove (2 : Fin 3) = 3) ∧
     ((1 : Fin 4).succAbove (0 : Fin 3) = 0 ∧ (1 : Fin 4).succAbove (1 : Fin 3) = 2 ∧
      (1 : Fin 4).succAbove (2 : Fin 3) = 3) ∧
     ((2 : Fin 4).succAbove (0 : Fin 3) = 0 ∧ (2 : Fin 4).succAbove (1 : Fin 3) = 1 ∧
      (2 : Fin 4).succAbove (2 : Fin 3) = 3) ∧
     ((3 : Fin 4).succAbove (0 : Fin 3) = 0 ∧ (3 : Fin 4).succAbove (1 : Fin 3) = 1 ∧
      (3 : Fin 4).succAbove (2 : Fin 3) = 2)) ∧
    (Fin.succ (0 : Fin 3) = (1 : Fin 4) ∧ Fin.succ (1 : Fin 3) = (2 : Fin 4) ∧
      Fin.succ (2 : Fin 3) = (3 : Fin 4)) ∧
    (((0 : Fin 4) : Nat) = 0 ∧ ((1 : Fin 4) : Nat) = 1 ∧ ((2 : Fin 4) : Nat) = 2 ∧
      ((3 : Fin 4) : Nat) = 3) := by
  decide

/-- The 4x4 routine's `det` is the determinant. -/
theorem det_4x4 [CommRing T] (A : Matrix T 4 4) : leibnizDet A.elem = inverse_4x4_det A := by
  simp only [leibnizDet, inverse_4x4_det]
  rw [Matrix.det_succ_row_zero, Fin.sum_univ_four]
  simp only [Matrix.det_fin_three, Matrix.submatrix_apply, Matrix.of_apply, fin4_tables,
    elem_4x4, inverse_4x4_tmp_idx]
  ring

/-! ## The concrete inputs, cell by cell -/

theorem diag2_2x2_elem :
    diag2_2x2.elem 0 0 = 2 ∧ diag2_2x2.elem 0 1 = 0 ∧ diag2_2x2.elem 1 0 = 0 ∧
    diag2_2x2.elem 1 1 = 2 :=
  ⟨rfl, rfl, rfl, rfl⟩

theorem half_2x2_elem :
    half_2x2.elem 0 0 = 1 / 2 ∧ half_2x2.elem 0 1 = 0 ∧ half_2x2.elem 1 0 = 0 ∧
    half_2x2.elem 1 1 = 1 / 2 :=
  ⟨rfl, rfl, rfl, rfl⟩

theorem sample_3x3_elem :
    sample_3x3.elem 0 0 = 1 ∧ sample_3x3.elem 0 1 = 0 ∧ sample_3x3.elem 0 2 = 0 ∧
    sample_3x3.elem 1 0 = 1 ∧ sample_3x3.elem 1 1 = 2 ∧ sample_3x3.elem 1 2 = 0 ∧
    sample_3x3.elem 2 0 = 1 ∧ sample_3x3.elem 2 1 = 5 ∧ sample_3x3.elem 2 2 = 3 :=
  ⟨rfl, rfl, rfl, rfl, rfl, rfl, rfl, rfl, rfl⟩

theorem sample_4x4_idx :
    sample_4x4.idx 0 = 2 ∧ sample_4x4.idx 1 = 0 ∧ sample_4x4.idx 2 = 0 ∧ sample_4x4.idx 3 = 0 ∧
    sample_4x4.idx 4 = 1 ∧ sample_4x4.idx 5 = 2 ∧ sample_4x4.idx 6 = 0 ∧ sample_4x4.idx 7 = 0 ∧
    sample_4x4.idx 8 = 0 ∧ sample_4x4.idx 9 = 0 ∧ sample_4x4.idx 10 = 1 ∧ sample_4x4.idx 11 = 3 ∧
    sample_4x4.idx 12 = 0 ∧ sample_4x4.idx 13 = 0 ∧ sample_4x4.idx 14 = 1 ∧ sample_4x4.idx 15 = 1 :=
  ⟨rfl, rfl, rfl, rfl, rfl, rfl, rfl, rfl, rfl, rfl, rfl, rfl, rfl, rfl, rfl, rfl⟩

theorem diag2_2x2_det : inverse_2x2_det diag2_2x2 = 4 := by
  simp only [inverse_2x2_det, diag2_2x2_elem]
  norm_num

theorem sample_3x3_det : inverse_3x3_det sample_3x3 = 6 := by
  simp only [inverse_3x3_det, sample_3x3_elem]
  norm_num

theorem sample_4x4_det : inverse_4x4_det sample_4x4 = -8 := by
  simp only [inverse_4x4_det, inverse_4x4_tmp_idx, sample_4x4_idx]
  norm_num

theorem diag2_2x2_det_ne : leibnizDet diag2_2x2.elem ≠ 0 := by
  rw [det_2x2, diag2_2x2_det]
  norm_num

theorem sample_3x3_det_ne : leibnizDet sample_3x3.elem ≠ 0 := by
  rw [det_3x3, sample_3x3_det]
  norm_num

theorem sample_4x4_det_ne : leibnizDet sample_4x4.elem ≠ 0 := by
  rw [det_4x4, sample_4x4_det]
  norm_num

theorem ones_2x2_det [CommRing T] : inverse_2x2_det (ones_2x2 T) = 0 := by
  simp [inverse_2x2_det, ones_2x2, Matrix.elem]

theorem inverse_2x2_diag2 : inverse_2x2 diag2_2x2 = Except.ok half_2x2 := by
  rw [inverse_2x2_unfold, diag2_2x2_det, if_neg (by norm_num)]
  congr 1
  apply Matrix.ext_elem
  intro i j
  rw [Matrix.mulScalar_elem]
  fin_cases i <;> fin_cases j <;>
    simp only [Fin.zero_eta, Fin.mk_one, Fin.isValue, inverse_2x2_tmp_elem, diag2_2x2_elem,
      half_2x2_elem] <;> norm_num

/-! ## The claims -/

/-- C1: for every 4x4 matrix `A` over a field whose determinant is nonzero, the 4x4
`inverse` returns a matrix `R` without error, and `A * R` and `R * A`, computed with
`operator*`, both equal what `Matrix<T,4,4>::Identity()` returns. -/
theorem inverse_4x4_is_inverse [Field T] [DecidableEq T] (A : Matrix T 4 4)
    (hdet : leibnizDet A.elem ≠ 0) :
    ∃ R, inverse_4x4 A = Except.ok R ∧
      Matrix.Identity T 4 4 = Except.ok (A.mul R) ∧
      Matrix.Identity T 4 4 = Except.ok (R.mul A) := by
  rw [det_4x4] at hdet
  refine ⟨_, by rw [inverse_4x4_unfold, if_neg hdet], ?_⟩
  exact Matrix.scaled_adjugate A (inverse_4x4_tmp A) _ hdet (adj_4x4_right A) (adj_4x4_left A)

theorem inverse_4x4_is_inverse_witness :
    leibnizDet sample_4x4.elem ≠ 0 ∧
    ∃ R, inverse_4x4 sample_4x4 = Except.ok R ∧
      Matrix.Identity ℚ 4 4 = Except.ok (sample_4x4.mul R) ∧
      Matrix.Identity ℚ 4 4 = Except.ok (R.mul sample_4x4) :=
  ⟨sample_4x4_det_ne, inverse_4x4_is_inverse sample_4x4 sample_4x4_det_ne⟩

/-- C2: for every 3x3 matrix `A` over a field whose determinant is nonzero, the 3x3
`inverse` returns a matrix `R` without error, and `A * R` and `R * A` both equal what
`Matrix<T,3,3>::Identity()` returns. -/
theorem inverse_3x3_is_inverse [Field T] [DecidableEq T] (A : Matrix T 3 3)
    (hdet : leibnizDet A.elem ≠ 0) :
    ∃ R, inverse_3x3 A = Except.ok R ∧
      Matrix.Identity T 3 3 = Except.ok (A.mul R) ∧
      Matrix.Identity T 3 3 = Except.ok (R.mul A) := by
  rw [det_3x3] at hdet
  refine ⟨_, by rw [inverse_3x3_unfold, if_neg hdet], ?_⟩
  exact Matrix.scaled_adjugate A (inverse_3x3_tmp A) _ hdet (adj_3x3_right A) (adj_3x3_left A)

theorem inverse_3x3_is_inverse_witness :
    leibnizDet sample_3x3.elem ≠ 0 ∧
    ∃ R, inverse_3x3 sample_3x3 = Except.ok R ∧
      Matrix.Identity ℚ 3 3 = Except.ok (sample_3x3.mul R) ∧
      Matrix.Identity ℚ 3 3 = Except.ok (R.mul sample_3x3) :=
  ⟨sample_3x3_det_ne, inverse_3x3_is_inverse sample_3x3 sample_3x3_det_ne⟩

/-- C3: for every 2x2 matrix `A` over a field whose determinant is nonzero, the 2x2
`inverse` returns a matrix `R` without error, and `A * R` and `R * A` both equal what
`Matrix<T,2,2>::Identity()` returns; in particular, over the rationals, inverting
`[[2, 0], [0, 2]]` yields `[[1/2, 0], [0, 1/2]]`. -/
theorem inverse_2x2_is_inverse [Field T] [DecidableEq T] (A : Matrix T 2 2)
    (hdet : leibnizDet A.elem ≠ 0) :
    (∃ R, inverse_2x2 A = Except.ok R ∧
      Matrix.Identity T 2 2 = Except.ok (A.mul R) ∧
      Matrix.Identity T 2 2 = Except.ok (R.mul A)) ∧
    inverse_2x2 diag2_2x2 = Except.ok half_2x2 := by
  rw [det_2x2] at hdet
  refine ⟨⟨_, by rw [inverse_2x2_unfold, if_neg hdet], ?_⟩, inverse_2x2_diag2⟩
  exact Matrix.scaled_adjugate A (inverse_2x2_tmp A) _ hdet (adj_2x2_right A) (adj_2x2_left A)

theorem inverse_2x2_is_inverse_witness :
    leibnizDet diag2_2x2.elem ≠ 0 ∧
    ((∃ R, inverse_2x2 diag2_2x2 = Except.ok R ∧
      Matrix.Identity ℚ 2 2 = Except.ok (diag2_2x2.mul R) ∧
      Matrix.Identity ℚ 2 2 = Except.ok (R.mul diag2_2x2)) ∧
    inverse_2x2 diag2_2x2 = Except.ok half_2x2) :=
  ⟨diag2_2x2_det_ne, inverse_2x2_is_inverse diag2_2x2 diag2_2x2_det_ne⟩

/-- What the 1x1 `inverse` returns: the single element times its reciprocal. -/
theorem inverse_1x1_idx [Field T] (m : Matrix T 1 1) :
    ∃ R, inverse_1x1 m = Except.ok R ∧ R.idx 0 = m.idx 0 * ((1 : T) / m.idx 0) :=
  ⟨_, rfl, Matrix.mulScalar_data m _ 0⟩

/-- C4, at the input `[2]` over the rationals: the 1x1 `inverse` returns `[2 * (1/2)]`,
that is `[1]`, not the reciprocal `[1/2]`, and neither product of `[2]` with the
returned matrix is what `Identity()` returns. -/
theorem inverse_1x1_of_two :
    ∃ R, inverse_1x1 two_1x1 = Except.ok R ∧ R.idx 0 = 1 ∧ R.idx 0 ≠ 1 / two_1x1.idx 0 ∧
      Matrix.Identity ℚ 1 1 ≠ Except.ok (two_1x1.mul R) ∧
      Matrix.Identity ℚ 1 1 ≠ Except.ok (R.mul two_1x1) := by
  obtain ⟨R, hR, hidx⟩ := inverse_1x1_idx two_1x1
  have h2 : two_1x1.idx 0 = 2 := rfl
  have h2' : two_1x1.elem 0 0 = 2 := rfl
  have h1 : R.idx 0 = 1 := by rw [hidx, h2]; norm_num
  have h1' : R.elem 0 0 = 1 := h1
  refine ⟨R, hR, h1, ?_, ?_, ?_⟩
  · rw [h1, h2]; norm_num
  · rw [Matrix.Identity_square]
    intro h
    have := congrArg (fun M : Matrix ℚ 1 1 => M.elem 0 0) (Except.ok.inj h)
    simp only [Matrix.identity_loop_elem, Matrix.mul_elem, Finset.univ_unique,
      Finset.sum_singleton, Fin.default_eq_zero, Fin.isValue, h1', h2', if_true] at this
    norm_num at this
  · rw [Matrix.Identity_square]
    intro h
    have := congrArg (fun M : Matrix ℚ 1 1 => M.elem 0 0) (Except.ok.inj h)
    simp only [Matrix.identity_loop_elem, Matrix.mul_elem, Finset.univ_unique,
      Finset.sum_singleton, Fin.default_eq_zero, Fin.isValue, h1', h2', if_true] at this
    norm_num at this

/-- C5: for N = 2, 3, 4 and every NxN matrix over a field, `inverse` fails with the
singular-matrix error (a `runtime_error`) exactly when the determinant is 0 and
returns a result exactly when it is not; the value the 4x4 routine computes as
`m[0]*tmp[0] + m[1]*tmp[4] + m[2]*tmp[8] + m[3]*tmp[12]` is the determinant; and
inverting `[[1, 1], [1, 1]]` fails. -/
theorem inverse_fails_iff_det_zero [Field T] [DecidableEq T] :
    (∀ A : Matrix T 2 2,
      (inverse_2x2 A = Except.error (Error.runtime_error "inverse(): determinant = 0")
        ↔ leibnizDet A.elem = 0) ∧
      ((∃ R, inverse_2x2 A = Except.ok R) ↔ leibnizDet A.elem ≠ 0)) ∧
    (∀ A : Matrix T 3 3,
      (inverse_3x3 A = Except.error (Error.runtime_error "inverse(): determinant = 0")
        ↔ leibnizDet A.elem = 0) ∧
      ((∃ R, inverse_3x3 A = Except.ok R) ↔ leibnizDet A.elem ≠ 0)) ∧
    (∀ A : Matrix T 4 4,
      (inverse_4x4 A = Except.error (Error.runtime_error "inverse(): determinant = 0")
        ↔ leibnizDet A.elem = 0) ∧
      ((∃ R, inverse_4x4 A = Except.ok R) ↔ leibnizDet A.elem ≠ 0) ∧
      A.idx 0 * (inverse_4x4_tmp A).idx 0 + A.idx 1 * (inverse_4x4_tmp A).idx 4
        + A.idx 2 * (inverse_4x4_tmp A).idx 8 + A.idx 3 * (inverse_4x4_tmp A).idx 12
        = leibnizDet A.elem) ∧
    inverse_2x2 (ones_2x2 T) = Except.error (Error.runtime_error "inverse(): determinant = 0") := by
  refine ⟨fun A => ?_, fun A => ?_, fun A => ?_, ?_⟩
  · rw [det_2x2, inverse_2x2_unfold]
    by_cases h : inverse_2x2_det A = 0 <;> simp [h]
  · rw [det_3x3, inverse_3x3_unfold]
    by_cases h : inverse_3x3_det A = 0 <;> simp [h]
  · rw [det_4x4, inverse_4x4_unfold]
    refine ⟨?_, ?_, rfl⟩ <;> by_cases h : inverse_4x4_det A = 0 <;> simp [h]
  · rw [inverse_2x2_unfold, if_pos ones_2x2_det]

/-- The list constructor on a list of the right length. -/
theorem ofList_ok_elem (init : Matrix T Rows Cols) (list : List T)
    (hlen : list.length = Rows * Cols) :
    ∃ M, Matrix.ofList init list = Except.ok M ∧
      ∀ (i : Fin Rows) (j : Fin Cols), list[i.val * Cols + j.val]? = some (M.elem i j) := by
  refine ⟨_, by simp only [Matrix.ofList, hlen, ne_eq, not_true_eq_false, if_false]; rfl, ?_⟩
  intro i j
  have hlt : i.val * Cols + j.val < Rows * Cols := by
    have := Matrix.offset_lt j.isLt i.isLt
    rw [Nat.mul_comm Rows Cols]
    exact this
  have := Matrix.ofList_loop_elem list init 0 i j (by omega) (by omega) (by omega)
  rwa [Nat.sub_zero] at this

/-- C6: for every list of exactly `Rows * Cols` scalars (and whatever the buffer held
before), the list constructor returns a matrix whose element `(i, j)` is
`list[i * Cols + j]`, stored at buffer offset `j * Rows + i`; in particular the 2x2
matrix built from `{1, 2, 3, 4}` has (0,0)=1, (0,1)=2, (1,0)=3, (1,1)=4. -/
theorem ofList_row_major (init : Matrix T Rows Cols) (list : List T)
    (hlen : list.length = Rows * Cols) :
    (∃ M, Matrix.ofList init list = Except.ok M ∧
      ∀ (i : Fin Rows) (j : Fin Cols),
        list[i.val * Cols + j.val]? = some (M.elem i j) ∧
        list[i.val * Cols + j.val]? =
          some (M.data ⟨j.val * Rows + i.val, Matrix.offset_lt i.isLt j.isLt⟩)) ∧
    (∀ init2 : Matrix ℤ 2 2, ∃ M, Matrix.ofList init2 [1, 2, 3, 4] = Except.ok M ∧
      M.elem 0 0 = 1 ∧ M.elem 0 1 = 2 ∧ M.elem 1 0 = 3 ∧ M.elem 1 1 = 4) := by
  refine ⟨?_, ?_⟩
  · obtain ⟨M, hM, h⟩ := ofList_ok_elem init list hlen
    exact ⟨M, hM, fun i j => ⟨h i j, h i j⟩⟩
  · intro init2
    obtain ⟨M, hM, h⟩ := ofList_ok_elem init2 [1, 2, 3, 4] rfl
    refine ⟨M, hM, ?_, ?_, ?_, ?_⟩
    · simpa using (h 0 0).symm
    · simpa using (h 0 1).symm
    · simpa using (h 1 0).symm
    · simpa using (h 1 1).symm

theorem ofList_row_major_witness :
    [(1 : ℤ), 2, 3, 4, 5, 6].length = 2 * 3 ∧
    ((∃ M, Matrix.ofList (Matrix.zero ℤ 2 3) [1, 2, 3, 4, 5, 6] = Except.ok M ∧
      ∀ (i : Fin 2) (j : Fin 3),
        [(1 : ℤ), 2, 3, 4, 5, 6][i.val * 3 + j.val]? = some (M.elem i j) ∧
        [(1 : ℤ), 2, 3, 4, 5, 6][i.val * 3 + j.val]? =
          some (M.data ⟨j.val * 2 + i.val, Matrix.offset_lt i.isLt j.isLt⟩)) ∧
    (∀ init2 : Matrix ℤ 2 2, ∃ M, Matrix.ofList init2 [1, 2, 3, 4] = Except.ok M ∧
      M.elem 0 0 = 1 ∧ M.elem 0 1 = 2 ∧ M.elem 1 0 = 3 ∧ M.elem 1 1 = 4)) :=
  ⟨rfl, ofList_row_major (Matrix.zero ℤ 2 3) [1, 2, 3, 4, 5, 6] rfl⟩

/-- C7: for every shape and every list, the list constructor fails with the logic
error exactly when the list length differs from `Rows * Cols`, and returns a matrix
exactly when the length is `Rows * Cols` (no truncation, no padding); a 2x2 matrix
from a 3-element list fails. -/
theorem ofList_fails_iff_length (init : Matrix T Rows Cols) (list : List T) :
    (Matrix.ofList init list = Except.error (Error.logic_error "list.size() != Rows * Cols")
      ↔ list.length ≠ Rows * Cols) ∧
    ((∃ M, Matrix.ofList init list = Except.ok M) ↔ list.length = Rows * Cols) ∧
    (∀ (init2 : Matrix T 2 2) (a b c : T),
      Matrix.ofList init2 [a, b, c]
        = Except.error (Error.logic_error "list.size() != Rows * Cols")) := by
  refine ⟨?_, ?_, fun init2 a b c => rfl⟩
  · by_cases h : list.length = Rows * Cols
    · simp [Matrix.ofList, h, pure, Except.pure]
    · simp [Matrix.ofList, h, throw, throwThe, MonadExceptOf.throw]
  · by_cases h : list.length = Rows * Cols
    · simp [Matrix.ofList, h, pure, Except.pure]
    · simp [Matrix.ofList, h, throw, throwThe, MonadExceptOf.throw]

/-- C8: for every `Rows x Cols` matrix `A` over a semiring, `Identity()` of size
`Rows` times `A` is `A`, and `A` times `Identity()` of size `Cols` is `A`, where
`Identity()` returns the square matrix with 1 on the diagonal and 0 elsewhere. -/
theorem identity_mul_and_mul_identity [Semiring T] (A : Matrix T Rows Cols) :
    (∃ I, Matrix.Identity T Rows Rows = Except.ok I ∧
      (∀ i j, I.elem i j = if i = j then 1 else 0) ∧ I.mul A = A) ∧
    (∃ J, Matrix.Identity T Cols Cols = Except.ok J ∧
      (∀ i j, J.elem i j = if i = j then 1 else 0) ∧ A.mul J = A) := by
  constructor
  · refine ⟨_, Matrix.Identity_square Rows, Matrix.identity_loop_elem, ?_⟩
    apply Matrix.ext_elem
    intro i j
    rw [Matrix.mul_elem]
    simp only [Matrix.identity_loop_elem, ite_mul, one_mul, zero_mul]
    rw [Finset.sum_ite_eq]
    simp
  · refine ⟨_, Matrix.Identity_square Cols, Matrix.identity_loop_elem, ?_⟩
    apply Matrix.ext_elem
    intro i j
    rw [Matrix.mul_elem]
    simp only [Matrix.identity_loop_elem, mul_ite, mul_one, mul_zero]
    rw [Finset.sum_ite_eq']
    simp

/-- C9: the product `A * B` of a `Rows x Cols` matrix and a `Cols x N` matrix has as
entry `(i, j)`, stored at buffer offset `j * Rows + i`, the sum over `k` in
`[0, Cols)` of `A(i, k) * B(k, j)`: `operator*` is the mathematical matrix
product. -/
theorem mul_is_matrix_product [Semiring T] (A : Matrix T Rows Cols) (B : Matrix T Cols N) :
    (∀ i j, (A.mul B).elem i j = matrixProduct A B i j) ∧
    (∀ (i : Fin Rows) (j : Fin N),
      (A.mul B).data ⟨j.val * Rows + i.val, Matrix.offset_lt i.isLt j.isLt⟩
        = matrixProduct A B i j) ∧
    Matrix.of (A.mul B).elem = Matrix.of A.elem * Matrix.of B.elem := by
  refine ⟨Matrix.mul_elem A B, Matrix.mul_elem A B, ?_⟩
  ext i j
  simp only [Matrix.of_apply, Matrix.mul_apply, Matrix.mul_elem]

/-- C10: for every `Rows x Cols` matrix `A`, `transpose()` returns the `Cols x Rows`
matrix with `T(j, i) = A(i, j)` at all positions, and transposing twice gives `A`
back, for all shapes. -/
theorem transpose_elem_and_involutive [Zero T] (A : Matrix T Rows Cols) :
    (∀ (i : Fin Rows) (j : Fin Cols), A.transpose.elem j i = A.elem i j) ∧
    A.transpose.transpose = A := by
  refine ⟨fun i j => Matrix.transpose_elem A j i, ?_⟩
  apply Matrix.ext_elem
  intro i j
  rw [Matrix.transpose_elem, Matrix.transpose_elem]

/-! ## Element-wise loops, sums and the remaining members -/

namespace Matrix

/-- A loop `for (i < Rows * Cols) (*this)[i] = g(i, (*this)[i])` changes every buffer
cell by `g`. -/
theorem pointwise_loop_data (g : Fin (Rows * Cols) → T → T) (m : Matrix T Rows Cols)
    (k : Fin (Rows * Cols)) :
    (Fin.foldl (Rows * Cols) (fun self i => self.setIdx i (g i (self.idx i))) m).data k
      = g k (m.data k) := by
  refine loop_touched _ (fun s : Matrix T Rows Cols => s.data k) k (g k) ?_ ?_ m
  · intro s
    simp [data_setIdx, idx]
  · intro y hy s
    have : ¬ (k.val = y.val) := fun e => hy (Fin.ext e.symm)
    simp [data_setIdx, this]

theorem divScalar_data [Div T] (m : Matrix T Rows Cols) (value : T) (k : Fin (Rows * Cols)) :
    (m.divScalar value).data k = m.data k / value :=
  pointwise_loop_data (fun _ x => x / value) m k

theorem add_data [Add T] (m B : Matrix T Rows Cols) (k : Fin (Rows * Cols)) :
    (m.add B).data k = m.data k + B.data k :=
  pointwise_loop_data (fun i x => x + B.idx i) m k

theorem sub_data [Sub T] (m B : Matrix T Rows Cols) (k : Fin (Rows * Cols)) :
    (m.sub B).data k = m.data k - B.data k :=
  pointwise_loop_data (fun i x => x - B.idx i) m k

/-- An accumulation loop `for (i < n) res += f(i)` starting from 0 computes the sum. -/
theorem foldl_add_eq_sum [AddCommMonoid T] :
    ∀ (n : Nat) (f : Fin n → T), Fin.foldl n (fun res i => res + f i) 0 = ∑ i, f i := by
  intro n
  induction n with
  | zero => intro f; simp [Fin.foldl_zero]
  | succ n ih =>
    intro f
    rw [Fin.foldl_succ_last, ih (fun i => f i.castSucc), Fin.sum_univ_castSucc]

theorem dot_eq_sum [Semiring T] (m B : Matrix T Rows Cols) :
    m.dot B = ∑ k, m.data k * B.data k :=
  foldl_add_eq_sum (Rows * Cols) (fun k => m.data k * B.data k)

theorem squared_norm_eq_sum [Semiring T] (m : Matrix T Rows Cols) :
    m.squared_norm = ∑ k, m.data k * m.data k := by
  unfold squared_norm
  have h : (List.ofFn fun k => m.data k * m.data k) = (List.ofFn m.data).map (fun v => v * v) := by
    rw [List.map_ofFn]
    rfl
  rw [← List.sum_ofFn, List.sum_eq_foldl, h, List.foldl_map]

/-- Element `i` of a column vector is buffer cell `i`. -/
theorem elem_col (m : Matrix T Rows 1) (i : Fin Rows) :
    m.elem i 0 = m.data ⟨i.val, by rw [Nat.mul_one]; exact i.isLt⟩ := by
  unfold elem
  congr 1
  apply Fin.ext
  simp

/-- Element `(i, j)` of `get<N, M>(i_0, j_0)` is element `(i + i_0, j + j_0)`. -/
theorem get_elem [Zero T] (m : Matrix T Rows Cols) (N M i_0 j_0 : Nat)
    (hN : N + i_0 ≤ Rows) (hM : M + j_0 ≤ Cols) (i : Fin N) (j : Fin M) :
    (m.get N M i_0 j_0 hN hM).elem i j
      = m.elem ⟨i + i_0, Nat.lt_of_lt_of_le (Nat.add_lt_add_right i.isLt i_0) hN⟩
          ⟨j + j_0, Nat.lt_of_lt_of_le (Nat.add_lt_add_right j.isLt j_0) hM⟩ := by
  unfold get
  refine loop_touched _ (fun s : Matrix T N M => s.elem i j) j (fun _ => _) ?_ ?_ _
  · intro s
    refine loop_touched _ (fun s : Matrix T N M => s.elem i j) i (fun _ => _) ?_ ?_ _
    · intro s
      exact elem_set_self _ _ _ _
    · intro y hy s
      exact elem_set_ne _ _ _ _ _ _ (fun h => hy h.1.symm)
  · intro y hy s
    refine loop_untouched _ (fun s : Matrix T N M => s.elem i j) ?_ _
    intro x s
    exact elem_set_ne _ _ _ _ _ _ (fun h => hy h.2.symm)

/-- On a column vector `extend()` returns the vector with a trailing 1 appended. -/
theorem extend_col [Zero T] [One T] (v : Matrix T Rows 1) :
    ∃ e, v.extend = Except.ok e ∧ (∀ i : Fin Rows, e.elem i.castSucc 0 = v.elem i 0) ∧
      e.elem (Fin.last Rows) 0 = 1 := by
  refine ⟨_, rfl, ?_, ?_⟩
  · intro i
    rw [elem_col, elem_col]
    simp only [data_setIdx, Fin.coe_castSucc, if_neg (Nat.ne_of_lt i.isLt)]
    refine loop_touched _
      (fun s : Matrix T (Rows + 1) 1 => s.data ⟨i.val, by
        rw [Nat.mul_one]; exact Nat.lt_succ_of_lt i.isLt⟩) i (fun _ => _) ?_ ?_ _
    · intro s
      simp [data_setIdx, idx]
    · intro y hy s
      have : ¬ (i.val = y.val) := fun e => hy (Fin.ext e.symm)
      simp [data_setIdx, this]
  · rw [elem_col]
    simp [data_setIdx]

/-- On a column vector with `n + 1` rows `project()` returns the first `n` elements,
each multiplied by `T(1) / data[n]`. -/
theorem project_col [Zero T] [One T] [Mul T] [Div T] {n : Nat} (m : Matrix T (n + 1) 1) :
    ∃ r, m.project = Except.ok r ∧
      ∀ i : Fin n, r.elem i 0 = m.elem i.castSucc 0 * ((1 : T) / m.elem (Fin.last n) 0) := by
  refine ⟨_, rfl, ?_⟩
  intro i
  rw [mulScalar_elem, get_elem]
  have h1 : m.idx ⟨n, by rw [Nat.mul_one]; exact Nat.lt_succ_self n⟩ = m.elem (Fin.last n) 0 := by
    rw [elem_col]
    rfl
  rw [h1]
  rfl

/-- If `T(1) / 1` is 1 and multiplying by 1 changes nothing, projecting the extension
of a column vector gives the vector back. -/
theorem project_extend_col [Zero T] [One T] [Mul T] [Div T] (hdiv : (1 : T) / 1 = 1)
    (hmul : ∀ x : T, x * 1 = x) (v : Matrix T Rows 1) :
    ∃ e, v.extend = Except.ok e ∧ (∀ i : Fin Rows, e.elem i.castSucc 0 = v.elem i 0) ∧
      e.elem (Fin.last Rows) 0 = 1 ∧ e.project = Except.ok v ∧
      e.project.bind extend = v.extend := by
  obtain ⟨e, he, hcast, hlast⟩ := extend_col v
  obtain ⟨r, hr, hrel⟩ := project_col e
  have hrv : r = v := by
    apply ext_elem
    intro i j
    have hj : j = 0 := Subsingleton.elim _ _
    subst hj
    rw [hrel, hlast, hcast, hdiv, hmul]
  subst hrv
  exact ⟨e, he, hcast, hlast, hr, by rw [hr]; rfl⟩

end Matrix

/-! ## The claims, continued -/

/-- C13: for all matrices `A` and `B` of the same shape over a scalar type whose
addition forms a group (a field, the integers, integers modulo a power of two),
`(A + B) - B` is `A`. -/
theorem add_sub_cancel_matrix [AddGroup T] (A B : Matrix T Rows Cols) :
    (A.add B).sub B = A := by
  apply Matrix.ext_data
  intro k
  rw [Matrix.sub_data, Matrix.add_data, add_sub_cancel_right]

/-- C17: for every matrix `A` of any shape, `squared_norm()` is the sum over all
`Rows * Cols` buffer cells of the cell squared, `dot(B)` is the sum over all flat
indices `k` of `data[k] * B[k]`, and `squared_norm(A)` equals `A.dot(A)`. -/
theorem squared_norm_is_dot_self [Semiring T] (A B : Matrix T Rows Cols) :
    A.squared_norm = ∑ k, A.data k * A.data k ∧
    A.dot B = ∑ k, A.idx k * B.idx k ∧
    A.squared_norm = A.dot A := by
  refine ⟨Matrix.squared_norm_eq_sum A, Matrix.dot_eq_sum A B, ?_⟩
  rw [Matrix.squared_norm_eq_sum, Matrix.dot_eq_sum]

/-- C18: for every `Rows x Cols` matrix `A` and `Cols x N` matrix `B` over a
commutative semiring, `(A * B).transpose()` equals `B.transpose() * A.transpose()`. -/
theorem transpose_mul [CommSemiring T] (A : Matrix T Rows Cols) (B : Matrix T Cols N) :
    (A.mul B).transpose = B.transpose.mul A.transpose := by
  apply Matrix.ext_elem
  intro j i
  rw [Matrix.transpose_elem, Matrix.mul_elem, Matrix.mul_elem]
  refine Finset.sum_congr rfl (fun k _ => ?_)
  rw [Matrix.transpose_elem, Matrix.transpose_elem, mul_comm]

/-- C11: for every `Rows x 1` vector `v`, over a field and over the integers with
truncating division, `extend()` appends a trailing 1, `project(extend(v))` is `v`,
and therefore `extend(project(extend(v)))` is `extend(v)`. -/
theorem project_extend_roundtrip :
    (∀ (T : Type) [Field T] (Rows : Nat) (v : Matrix T Rows 1),
      ∃ e, v.extend = Except.ok e ∧ (∀ i : Fin Rows, e.elem i.castSucc 0 = v.elem i 0) ∧
        e.elem (Fin.last Rows) 0 = 1 ∧ e.project = Except.ok v ∧
        e.project.bind Matrix.extend = v.extend) ∧
    (∀ (Rows : Nat) (v : Matrix CInt Rows 1),
      ∃ e, v.extend = Except.ok e ∧ (∀ i : Fin Rows, e.elem i.castSucc 0 = v.elem i 0) ∧
        e.elem (Fin.last Rows) 0 = 1 ∧ e.project = Except.ok v ∧
        e.project.bind Matrix.extend = v.extend) := by
  constructor
  · intro T _ Rows v
    exact Matrix.project_extend_col (div_one 1) mul_one v
  · intro Rows v
    exact Matrix.project_extend_col rfl mul_one v

/-- C12, at the integer vector `(4, 2)`: the last element is nonzero, `project()`
returns the one-element vector `(0)`, because `1 / 2` truncates to 0, while `4 / 2`
under the integers' own division is 2. -/
theorem project_int_is_not_quotient :
    vec42_int.elem (Fin.last 1) 0 ≠ 0 ∧
    ∃ r, vec42_int.project = Except.ok r ∧ r.elem 0 0 = 0 ∧
      vec42_int.elem 0 0 / vec42_int.elem (Fin.last 1) 0 = 2 ∧
      r.elem 0 0 ≠ vec42_int.elem 0 0 / vec42_int.elem (Fin.last 1) 0 := by
  obtain ⟨r, hr, hrel⟩ := Matrix.project_col vec42_int
  have h0 : r.elem 0 0 = 0 := by
    rw [hrel 0]
    decide
  refine ⟨by decide, r, hr, h0, by decide, ?_⟩
  rw [h0]
  decide

/-- C12 (amended): over a field, for every column vector `v` with `n + 1` rows and
nonzero last element, `project()` returns the `n`-element vector whose `i`-th element
is `v[i]` divided by `v[n]`; over the integers with truncating division the `i`-th
element is `v[i] * (1 / v[n])`, the reciprocal being computed (and truncated) first. -/
theorem project_divides_by_last [Field T] {n : Nat} (v : Matrix T (n + 1) 1)
    (hlast : v.elem (Fin.last n) 0 ≠ 0) :
    (∃ r, v.project = Except.ok r ∧
      ∀ i : Fin n, r.elem i 0 = v.elem i.castSucc 0 / v.elem (Fin.last n) 0 ∧
        r.elem i 0 * v.elem (Fin.last n) 0 = v.elem i.castSucc 0) ∧
    (∀ w : Matrix CInt (n + 1) 1, ∃ r, w.project = Except.ok r ∧
      ∀ i : Fin n, r.elem i 0 = w.elem i.castSucc 0 * (1 / w.elem (Fin.last n) 0)) := by
  refine ⟨?_, fun w => Matrix.project_col w⟩
  obtain ⟨r, hr, hrel⟩ := Matrix.project_col v
  refine ⟨r, hr, fun i => ?_⟩
  rw [hrel i, mul_one_div]
  exact ⟨rfl, div_mul_cancel₀ _ hlast⟩

theorem project_divides_by_last_witness :
    vec42_rat.elem (Fin.last 1) 0 ≠ 0 ∧
    ((∃ r, vec42_rat.project = Except.ok r ∧
      ∀ i : Fin 1, r.elem i 0 = vec42_rat.elem i.castSucc 0 / vec42_rat.elem (Fin.last 1) 0 ∧
        r.elem i 0 * vec42_rat.elem (Fin.last 1) 0 = vec42_rat.elem i.castSucc 0) ∧
    (∀ w : Matrix CInt (1 + 1) 1, ∃ r, w.project = Except.ok r ∧
      ∀ i : Fin 1, r.elem i 0 = w.elem i.castSucc 0 * (1 / w.elem (Fin.last 1) 0))) :=
  have h : vec42_rat.elem (Fin.last 1) 0 ≠ 0 := by
    have : vec42_rat.elem (Fin.last 1) 0 = 2 := rfl
    rw [this]
    norm_num
  ⟨h, project_divides_by_last vec42_rat h⟩

/-- C14: for every matrix `A` and every nonzero scalar `s`, over a field and over
the integers with truncating division, `(A * s) / s` is `A`, where `*` and `/` are
the element-wise scalar operators. -/
theorem scalar_mul_div_cancel [Field T] (A : Matrix T Rows Cols) (s : T) (hs : s ≠ 0) :
    (A.mulScalar s).divScalar s = A ∧
    (∀ (B : Matrix CInt Rows Cols) (t : CInt), t ≠ 0 → (B.mulScalar t).divScalar t = B) := by
  constructor
  · apply Matrix.ext_data
    intro k
    rw [Matrix.divScalar_data, Matrix.mulScalar_data, mul_div_assoc, div_self hs, mul_one]
  · intro B t ht
    apply Matrix.ext_data
    intro k
    rw [Matrix.divScalar_data, Matrix.mulScalar_data]
    exact Int.mul_tdiv_cancel _ ht

theorem scalar_mul_div_cancel_witness :
    (diag2_2x2.mulScalar 2).divScalar 2 = diag2_2x2 ∧
    (diag2_int.mulScalar 3).divScalar 3 = diag2_int :=
  ⟨(scalar_mul_div_cancel diag2_2x2 2 (by norm_num)).1,
   (scalar_mul_div_cancel diag2_2x2 2 (by norm_num)).2 diag2_int 3 (by decide)⟩

/-- C15: the member `inverse()` fails with the logic error "Rows != Cols" on every
non-square matrix; on every square matrix of a size other than 1, 2, 3, 4 it fails
with the logic error "not implemented", whatever the entries; on a square matrix of
size 1, 2, 3 or 4 it returns what the free function for that size returns. -/
theorem member_inverse_dispatch [Zero T] [One T] [Add T] [Sub T] [Mul T] [Neg T] [Div T]
    [DecidableEq T] :
    (∀ (Rows Cols : Nat) (m : Matrix T Rows Cols), Rows ≠ Cols →
      m.inverse = Except.error (Error.logic_error "Rows != Cols")) ∧
    (∀ (N : Nat) (m : Matrix T N N), N ≠ 1 → N ≠ 2 → N ≠ 3 → N ≠ 4 →
      m.inverse = Except.error (Error.logic_error "not implemented")) ∧
    (∀ m : Matrix T 1 1, m.inverse = inverse_1x1 m) ∧
    (∀ m : Matrix T 2 2, m.inverse = inverse_2x2 m) ∧
    (∀ m : Matrix T 3 3, m.inverse = inverse_3x3 m) ∧
    (∀ m : Matrix T 4 4, m.inverse = inverse_4x4 m) := by
  refine ⟨?_, ?_, fun m => rfl, fun m => rfl, fun m => rfl, fun m => rfl⟩
  · intro Rows Cols m h
    unfold Matrix.inverse
    rw [if_pos h]
    rfl
  · intro N m h1 h2 h3 h4
    unfold Matrix.inverse
    rw [if_neg (fun h => h rfl)]
    match N, m, h1, h2, h3, h4 with
    | 0, _, _, _, _, _ => rfl
    | 1, _, h, _, _, _ => exact absurd rfl h
    | 2, _, _, h, _, _ => exact absurd rfl h
    | 3, _, _, _, h, _ => exact absurd rfl h
    | 4, _, _, _, _, h => exact absurd rfl h
    | _ + 5, _, _, _, _, _ => rfl

theorem member_inverse_dispatch_witness :
    (Matrix.zero ℚ 2 3).inverse = Except.error (Error.logic_error "Rows != Cols") ∧
    (Matrix.zero ℚ 5 5).inverse = Except.error (Error.logic_error "not implemented") :=
  ⟨member_inverse_dispatch.1 2 3 (Matrix.zero ℚ 2 3) (by decide),
   member_inverse_dispatch.2.1 5 (Matrix.zero ℚ 5 5) (by decide) (by decide) (by decide)
     (by decide)⟩

/-! ### Text written by loops with separators -/

theorem intercalate_go_concat (sep : String) :
    ∀ (l : List String) (acc x : String),
      String.intercalate.go acc sep (l ++ [x]) = String.intercalate.go acc sep l ++ sep ++ x := by
  intro l
  induction l with
  | nil => intro acc x; rfl
  | cons a t ih =>
    intro acc x
    simp only [List.cons_append, String.intercalate.go]
    exact ih _ x

theorem intercalate_concat (sep : String) (l : List String) (x : String) :
    String.intercalate sep (l ++ [x])
      = if l = [] then x else String.intercalate sep l ++ sep ++ x := by
  cases l with
  | nil => rfl
  | cons a t =>
    rw [if_neg (List.cons_ne_nil a t)]
    simp only [List.cons_append, String.intercalate]
    exact intercalate_go_concat sep t a x

/-- A loop that writes `f i` for each `i`, preceded by `sep` when `i > 0`, writes the
`f i` joined by `sep`. -/
theorem join_loop (sep : String) :
    ∀ (n : Nat) (body : String → Fin n → String) (f : Fin n → String),
      (∀ out i, body out i = (if i.val > 0 then out ++ sep else out) ++ f i) →
      ∀ out, Fin.foldl n body out = out ++ String.intercalate sep (List.ofFn f) := by
  intro n
  induction n with
  | zero =>
    intro body f _ out
    simp [Fin.foldl_zero, String.intercalate]
  | succ n ih =>
    intro body f hbody out
    rw [Fin.foldl_succ_last, hbody,
      ih (fun out i => body out i.castSucc) (fun i => f i.castSucc) (fun out i => hbody out _),
      List.ofFn_succ', List.concat_eq_append, intercalate_concat]
    rcases Nat.eq_zero_or_pos n with h0 | hpos
    · subst h0
      simp [String.intercalate]
    · have hne : (List.ofFn fun i : Fin n => f i.castSucc) ≠ [] := by
        intro h
        have := congrArg List.length h
        simp at this
        omega
      simp only [Fin.val_last, gt_iff_lt, hpos, if_true, if_neg hne, String.append_assoc]

/-- What `print` writes: the label, `" = ["`, a newline, the rows joined by a comma
and a newline, `"]"` and a newline. -/
theorem print_eq (fmt : T → String) (m : Matrix T Rows Cols) (out name : String) :
    m.print fmt out name = out ++ name ++ " = [" ++ "\n" ++ rowsJoined fmt m ++ "]" ++ "\n" := by
  unfold Matrix.print rowsJoined
  simp only []
  rw [join_loop ",\n" Rows _
    (fun i => "[" ++ String.intercalate ", " (List.ofFn fun j => fmt (m.elem i j)) ++ "]")]
  intro out i
  rw [join_loop ", " Cols _ (fun j => fmt (m.elem i j)) (fun out j => rfl)]
  split_ifs <;> simp only [String.append_assoc]
  rfl

/-- The rows of the 2x2 integer identity, joined. -/
theorem rowsJoined_identity_2x2 :
    rowsJoined (fun x : ℤ => toString x)
      (Fin.foldl 2 (fun res i => res.set i i (1 : ℤ)) (Matrix.zero ℤ 2 2)) = "[1, 0],\n[0, 1]" := by
  simp only [rowsJoined, List.ofFn_succ, List.ofFn_zero, Matrix.identity_loop_elem]
  simp
  decide

/-- C16, at the 2x2 identity over the integers with the label "A": `print` writes
`A = [`, a newline, `[1, 0],`, a newline, `[0, 1]]` and a newline, which is not the
label, then `" = "`, then the rendering `[[1, 0],\n[0, 1]]`. -/
theorem print_identity_is_not_rendering :
    ∃ I, Matrix.Identity ℤ 2 2 = Except.ok I ∧
      rendering (fun x => toString x) I = "[[1, 0],\n[0, 1]]" ∧
      I.print (fun x => toString x) "" "A" = "A = [\n[1, 0],\n[0, 1]]\n" ∧
      I.print (fun x => toString x) "" "A" ≠ "A" ++ " = " ++ rendering (fun x => toString x) I := by
  refine ⟨_, Matrix.Identity_square 2, ?_, ?_, ?_⟩
  · rw [rendering, rowsJoined_identity_2x2]
    decide
  · rw [print_eq, rowsJoined_identity_2x2]
    decide
  · rw [print_eq, rendering, rowsJoined_identity_2x2]
    decide

/-- C16 (amended): for every matrix, label and scalar rendering, `print` writes the
label, then `" = ["`, then a newline, then the rows joined by a comma and a newline,
each row being '[' + its elements joined by ", " + ']', then `"]"` and a newline; for
the 2x2 identity and every label `L` it writes `L = [`, a newline, `[1, 0],`, a
newline, `[0, 1]]` and a newline. -/
theorem print_writes_rows (fmt : T → String) (m : Matrix T Rows Cols) (out name : String) :
    m.print fmt out name = out ++ name ++ " = [" ++ "\n" ++ rowsJoined fmt m ++ "]" ++ "\n" ∧
    rowsJoined fmt m = String.intercalate ",\n" (List.ofFn fun i =>
      "[" ++ String.intercalate ", " (List.ofFn fun j => fmt (m.elem i j)) ++ "]") ∧
    (∀ L : String, ∃ I, Matrix.Identity ℤ 2 2 = Except.ok I ∧
      I.print (fun x => toString x) "" L = L ++ " = [\n[1, 0],\n[0, 1]]\n") := by
  refine ⟨print_eq fmt m out name, rfl, fun L => ⟨_, Matrix.Identity_square 2, ?_⟩⟩
  rw [print_eq, rowsJoined_identity_2x2]
  simp only [String.append_assoc, String.empty_append]
  rfl

/-! ### Products and inverses as Mathlib matrices -/

/-- The matrix of `A * B` is the product of the matrices of `A` and `B`. -/
theorem of_mul [Semiring T] (A : Matrix T Rows Cols) (B : Matrix T Cols N) :
    Matrix.of (A.mul B).elem = Matrix.of A.elem * Matrix.of B.elem := by
  ext i j
  simp only [Matrix.of_apply, Matrix.mul_apply, Matrix.mul_elem]

/-- If `Identity()` returns `M`, the matrix of `M` is the unit matrix. -/
theorem of_identity [Semiring T] {n : Nat} {M : Matrix T n n}
    (h : Matrix.Identity T n n = Except.ok M) : Matrix.of M.elem = 1 := by
  rw [Matrix.Identity_square] at h
  rw [← Except.ok.inj h]
  ext i j
  simp only [Matrix.of_apply, Matrix.identity_loop_elem, Matrix.one_apply]

/-- A routine that returns a two-sided inverse whenever the determinant is nonzero
returns, on its own result, the matrix it started from. -/
theorem inverse_twice_of_two_sided [Field T] {n : Nat}
    (inv : Matrix T n n → Except Error (Matrix T n n))
    (hinv : ∀ A : Matrix T n n, leibnizDet A.elem ≠ 0 →
      ∃ R, inv A = Except.ok R ∧ Matrix.Identity T n n = Except.ok (A.mul R) ∧
        Matrix.Identity T n n = Except.ok (R.mul A))
    (A : Matrix T n n) (hA : leibnizDet A.elem ≠ 0) :
    ∃ R, inv A = Except.ok R ∧ leibnizDet R.elem ≠ 0 ∧ inv R = Except.ok A := by
  obtain ⟨R, hR, h1, h2⟩ := hinv A hA
  have e1 : Matrix.of A.elem * Matrix.of R.elem = 1 := by rw [← of_mul, of_identity h1]
  have e2 : Matrix.of R.elem * Matrix.of A.elem = 1 := by rw [← of_mul, of_identity h2]
  have hdetR : leibnizDet R.elem ≠ 0 := by
    intro h0
    have := congrArg Matrix.det e1
    rw [Matrix.det_mul, Matrix.det_one] at this
    unfold leibnizDet at h0
    rw [h0, mul_zero] at this
    exact zero_ne_one this
  obtain ⟨R', hR', h3, _⟩ := hinv R hdetR
  have e3 : Matrix.of R.elem * Matrix.of R'.elem = 1 := by rw [← of_mul, of_identity h3]
  have hof : Matrix.of R'.elem = Matrix.of A.elem := by
    rw [← Matrix.inv_eq_right_inv e3, ← Matrix.inv_eq_right_inv e2]
  have hRA : R' = A := by
    apply Matrix.ext_elem
    intro i j
    have := congrFun (congrFun hof i) j
    simpa only [Matrix.of_apply] using this
  exact ⟨R, hR, hdetR, by rw [hR', hRA]⟩

theorem inverse_2x2_two_sided [Field T] [DecidableEq T] (A : Matrix T 2 2)
    (hdet : leibnizDet A.elem ≠ 0) :
    ∃ R, inverse_2x2 A = Except.ok R ∧ Matrix.Identity T 2 2 = Except.ok (A.mul R) ∧
      Matrix.Identity T 2 2 = Except.ok (R.mul A) := by
  rw [det_2x2] at hdet
  refine ⟨_, by rw [inverse_2x2_unfold, if_neg hdet], ?_⟩
  exact Matrix.scaled_adjugate A (inverse_2x2_tmp A) _ hdet (adj_2x2_right A) (adj_2x2_left A)

theorem inverse_3x3_two_sided [Field T] [DecidableEq T] (A : Matrix T 3 3)
    (hdet : leibnizDet A.elem ≠ 0) :
    ∃ R, inverse_3x3 A = Except.ok R ∧ Matrix.Identity T 3 3 = Except.ok (A.mul R) ∧
      Matrix.Identity T 3 3 = Except.ok (R.mul A) := by
  rw [det_3x3] at hdet
  refine ⟨_, by rw [inverse_3x3_unfold, if_neg hdet], ?_⟩
  exact Matrix.scaled_adjugate A (inverse_3x3_tmp A) _ hdet (adj_3x3_right A) (adj_3x3_left A)

theorem inverse_4x4_two_sided [Field T] [DecidableEq T] (A : Matrix T 4 4)
    (hdet : leibnizDet A.elem ≠ 0) :
    ∃ R, inverse_4x4 A = Except.ok R ∧ Matrix.Identity T 4 4 = Except.ok (A.mul R) ∧
      Matrix.Identity T 4 4 = Except.ok (R.mul A) := by
  rw [det_4x4] at hdet
  refine ⟨_, by rw [inverse_4x4_unfold, if_neg hdet], ?_⟩
  exact Matrix.scaled_adjugate A (inverse_4x4_tmp A) _ hdet (adj_4x4_right A) (adj_4x4_left A)

/-- C19: for N = 2, 3, 4 and every NxN matrix `A` over a field with nonzero
determinant, `inverse(A)` succeeds, the returned matrix has nonzero determinant,
and `inverse` of it succeeds and returns `A`. -/
theorem inverse_of_inverse [Field T] [DecidableEq T] :
    (∀ A : Matrix T 2 2, leibnizDet A.elem ≠ 0 →
      ∃ R, inverse_2x2 A = Except.ok R ∧ leibnizDet R.elem ≠ 0 ∧ inverse_2x2 R = Except.ok A) ∧
    (∀ A : Matrix T 3 3, leibnizDet A.elem ≠ 0 →
      ∃ R, inverse_3x3 A = Except.ok R ∧ leibnizDet R.elem ≠ 0 ∧ inverse_3x3 R = Except.ok A) ∧
    (∀ A : Matrix T 4 4, leibnizDet A.elem ≠ 0 →
      ∃ R, inverse_4x4 A = Except.ok R ∧ leibnizDet R.elem ≠ 0 ∧ inverse_4x4 R = Except.ok A) :=
  ⟨inverse_twice_of_two_sided inverse_2x2 inverse_2x2_two_sided,
   inverse_twice_of_two_sided inverse_3x3 inverse_3x3_two_sided,
   inverse_twice_of_two_sided inverse_4x4 inverse_4x4_two_sided⟩

theorem inverse_of_inverse_witness :
    (∃ R, inverse_2x2 diag2_2x2 = Except.ok R ∧ leibnizDet R.elem ≠ 0 ∧
      inverse_2x2 R = Except.ok diag2_2x2) ∧
    (∃ R, inverse_3x3 sample_3x3 = Except.ok R ∧ leibnizDet R.elem ≠ 0 ∧
      inverse_3x3 R = Except.ok sample_3x3) ∧
    (∃ R, inverse_4x4 sample_4x4 = Except.ok R ∧ leibnizDet R.elem ≠ 0 ∧
      inverse_4x4 R = Except.ok sample_4x4) :=
  ⟨inverse_of_inverse.1 diag2_2x2 diag2_2x2_det_ne,
   inverse_of_inverse.2.1 sample_3x3 sample_3x3_det_ne,
   inverse_of_inverse.2.2 sample_4x4 sample_4x4_det_ne⟩

/-! ### Integer scalars: the reciprocal of the determinant truncates -/

theorem CInt.one_div_eq_zero (d : CInt) (h : 2 ≤ Int.natAbs (CInt.toInt d)) :
    (1 : CInt) / d = 0 := by
  show Int.tdiv 1 d = 0
  have h' : 2 ≤ Int.natAbs d := h
  cases d with
  | ofNat n =>
    have hn : 2 ≤ n := h'
    exact Int.tdiv_eq_zero_of_lt (by decide) (Int.ofNat_lt.mpr hn)
  | negSucc n =>
    have hn : 2 ≤ n + 1 := h'
    show -Int.ofNat (1 / (n + 1)) = 0
    rw [Nat.div_eq_of_lt (by omega)]
    rfl

theorem CInt.ne_zero_of_two_le (d : CInt) (h : 2 ≤ Int.natAbs (CInt.toInt d)) : d ≠ 0 := by
  intro h0
  rw [h0] at h
  exact absurd h (by decide)

theorem mulScalar_zero [MulZeroClass T] (m : Matrix T Rows Cols) :
    m.mulScalar 0 = Matrix.zero T Rows Cols := by
  apply Matrix.ext_data
  intro k
  rw [Matrix.mulScalar_data, mul_zero]
  rfl

/-- The commutative-ring form of `scaled_adjugate`: it is enough that `D * c = 1`. -/
theorem scaled_adjugate_unit [CommRing T] {n : Nat} (A tmp : Matrix T n n) (D c : T)
    (hDc : D * c = 1)
    (hr : ∀ i j, ∑ k, A.elem i k * tmp.elem k j = if i = j then D else 0)
    (hl : ∀ i j, ∑ k, tmp.elem i k * A.elem k j = if i = j then D else 0) :
    Matrix.Identity T n n = Except.ok (A.mul (tmp.mulScalar c)) ∧
    Matrix.Identity T n n = Except.ok ((tmp.mulScalar c).mul A) := by
  rw [Matrix.Identity_square]
  constructor
  · congr 1
    apply Matrix.ext_elem
    intro i j
    rw [Matrix.identity_loop_elem, Matrix.mul_elem]
    simp only [Matrix.mulScalar_elem, ← mul_assoc]
    rw [← Finset.sum_mul, hr]
    split_ifs
    · exact hDc.symm
    · rw [zero_mul]
  · congr 1
    apply Matrix.ext_elem
    intro i j
    rw [Matrix.identity_loop_elem, Matrix.mul_elem]
    simp only [Matrix.mulScalar_elem, mul_right_comm _ c _]
    rw [← Finset.sum_mul, hl]
    split_ifs
    · exact hDc.symm
    · rw [zero_mul]

/-- The two integer cases of an inverse computed as `tmp * (1 / D)` behind the test
`D == 0`: all zeros when `|D| >= 2`, a two-sided inverse when `D` is 1 or -1. -/
theorem int_inverse_cases {n : Nat} (A tmp : Matrix CInt n n) (D : CInt)
    (hr : ∀ i j, ∑ k, A.elem i k * tmp.elem k j = if i = j then D else 0)
    (hl : ∀ i j, ∑ k, tmp.elem i k * A.elem k j = if i = j then D else 0)
    (r : Except Error (Matrix CInt n n))
    (hres : r = if D = 0 then Except.error (Error.runtime_error "inverse(): determinant = 0")
      else Except.ok (tmp.mulScalar ((1 : CInt) / D))) :
    (2 ≤ Int.natAbs (CInt.toInt D) → r = Except.ok (Matrix.zero CInt n n)) ∧
    ((D = 1 ∨ D = -1) → ∃ R, r = Except.ok R ∧
      Matrix.Identity CInt n n = Except.ok (A.mul R) ∧
      Matrix.Identity CInt n n = Except.ok (R.mul A)) := by
  constructor
  · intro h
    rw [hres, if_neg (CInt.ne_zero_of_two_le D h), CInt.one_div_eq_zero D h, mulScalar_zero]
  · intro h
    have hne : D ≠ 0 := by
      rcases h with h | h <;> rw [h] <;> decide
    have hDc : D * ((1 : CInt) / D) = 1 := by
      rcases h with h | h <;> rw [h] <;> decide
    exact ⟨_, by rw [hres, if_neg hne], scaled_adjugate_unit A tmp D _ hDc hr hl⟩

theorem inverse_2x2_unfold_int (m : Matrix CInt 2 2) :
    inverse_2x2 m = if inverse_2x2_det m = 0 then
        Except.error (Error.runtime_error "inverse(): determinant = 0")
      else Except.ok ((inverse_2x2_tmp m).mulScalar ((1 : CInt) / inverse_2x2_det m)) := rfl

theorem inverse_3x3_unfold_int (m : Matrix CInt 3 3) :
    inverse_3x3 m = if inverse_3x3_det m = 0 then
        Except.error (Error.runtime_error "inverse(): determinant = 0")
      else Except.ok ((inverse_3x3_tmp m).mulScalar ((1 : CInt) / inverse_3x3_det m)) := rfl

theorem inverse_4x4_unfold_int (m : Matrix CInt 4 4) :
    inverse_4x4 m = if inverse_4x4_det m = 0 then
        Except.error (Error.runtime_error "inverse(): determinant = 0")
      else Except.ok ((inverse_4x4_tmp m).mulScalar ((1 : CInt) / inverse_4x4_det m)) := rfl

theorem diag2_int_det : leibnizDet diag2_int.elem = 4 := by
  rw [det_2x2]
  decide

theorem shear_int_det : leibnizDet shear_int.elem = -1 := by
  rw [det_2x2]
  decide

theorem scale_3x3_int_det : leibnizDet scale_3x3_int.elem = 2 := by
  rw [det_3x3]
  decide

theorem unit_3x3_int_det : leibnizDet unit_3x3_int.elem = 1 := by
  rw [det_3x3]
  decide

theorem scale_4x4_int_det : leibnizDet scale_4x4_int.elem = 3 := by
  rw [det_4x4]
  decide

theorem unit_4x4_int_det : leibnizDet unit_4x4_int.elem = -1 := by
  rw [det_4x4]
  decide

theorem inverse_2x2_int_cases (A : Matrix CInt 2 2) :
    (2 ≤ Int.natAbs (CInt.toInt (leibnizDet A.elem)) →
      inverse_2x2 A = Except.ok (Matrix.zero CInt 2 2)) ∧
    ((leibnizDet A.elem = 1 ∨ leibnizDet A.elem = -1) →
      ∃ R, inverse_2x2 A = Except.ok R ∧
        Matrix.Identity CInt 2 2 = Except.ok (A.mul R) ∧
        Matrix.Identity CInt 2 2 = Except.ok (R.mul A)) := by
  rw [det_2x2]
  exact int_inverse_cases A (inverse_2x2_tmp A) _ (adj_2x2_right A) (adj_2x2_left A) _
    (inverse_2x2_unfold_int A)

/-- C20: over the integers with truncating division and for N = 2, 3, 4, `inverse`
of every NxN matrix whose determinant `d` has `|d| >= 2` returns the all-zero matrix
without error (`T(1) / d` truncates to 0); when `d` is 1 or -1 it returns a matrix
whose products with `A` on both sides are what `Identity()` returns; the integer
matrix `[[2, 0], [0, 2]]` inverts to all zeros, and its product with that result is
not the identity. -/
theorem inverse_int_truncates :
    (∀ A : Matrix CInt 2 2,
      (2 ≤ Int.natAbs (CInt.toInt (leibnizDet A.elem)) →
        inverse_2x2 A = Except.ok (Matrix.zero CInt 2 2)) ∧
      ((leibnizDet A.elem = 1 ∨ leibnizDet A.elem = -1) →
        ∃ R, inverse_2x2 A = Except.ok R ∧
          Matrix.Identity CInt 2 2 = Except.ok (A.mul R) ∧
          Matrix.Identity CInt 2 2 = Except.ok (R.mul A))) ∧
    (∀ A : Matrix CInt 3 3,
      (2 ≤ Int.natAbs (CInt.toInt (leibnizDet A.elem)) →
        inverse_3x3 A = Except.ok (Matrix.zero CInt 3 3)) ∧
      ((leibnizDet A.elem = 1 ∨ leibnizDet A.elem = -1) →
        ∃ R, inverse_3x3 A = Except.ok R ∧
          Matrix.Identity CInt 3 3 = Except.ok (A.mul R) ∧
          Matrix.Identity CInt 3 3 = Except.ok (R.mul A))) ∧
    (∀ A : Matrix CInt 4 4,
      (2 ≤ Int.natAbs (CInt.toInt (leibnizDet A.elem)) →
        inverse_4x4 A = Except.ok (Matrix.zero CInt 4 4)) ∧
      ((leibnizDet A.elem = 1 ∨ leibnizDet A.elem = -1) →
        ∃ R, inverse_4x4 A = Except.ok R ∧
          Matrix.Identity CInt 4 4 = Except.ok (A.mul R) ∧
          Matrix.Identity CInt 4 4 = Except.ok (R.mul A))) ∧
    (inverse_2x2 diag2_int = Except.ok (Matrix.zero CInt 2 2) ∧
      Matrix.Identity CInt 2 2 ≠ Except.ok (diag2_int.mul (Matrix.zero CInt 2 2))) := by
  refine ⟨inverse_2x2_int_cases, fun A => ?_, fun A => ?_, ?_, ?_⟩
  · rw [det_3x3]
    exact int_inverse_cases A (inverse_3x3_tmp A) _ (adj_3x3_right A) (adj_3x3_left A) _
      (inverse_3x3_unfold_int A)
  · rw [det_4x4]
    exact int_inverse_cases A (inverse_4x4_tmp A) _ (adj_4x4_right A) (adj_4x4_left A) _
      (inverse_4x4_unfold_int A)
  · refine (inverse_2x2_int_cases diag2_int).1 ?_
    rw [diag2_int_det]
    decide
  · rw [Matrix.Identity_square]
    intro h
    have := congrArg (fun M : Matrix CInt 2 2 => M.elem 0 0) (Except.ok.inj h)
    simp only [Matrix.identity_loop_elem, Matrix.mul_elem, Matrix.zero_elem, mul_zero,
      Finset.sum_const_zero, if_true] at this
    exact absurd this (by decide)

theorem inverse_int_truncates_witness :
    (inverse_2x2 diag2_int = Except.ok (Matrix.zero CInt 2 2) ∧
     ∃ R, inverse_2x2 shear_int = Except.ok R ∧
       Matrix.Identity CInt 2 2 = Except.ok (shear_int.mul R) ∧
       Matrix.Identity CInt 2 2 = Except.ok (R.mul shear_int)) ∧
    (inverse_3x3 scale_3x3_int = Except.ok (Matrix.zero CInt 3 3) ∧
     ∃ R, inverse_3x3 unit_3x3_int = Except.ok R ∧
       Matrix.Identity CInt 3 3 = Except.ok (unit_3x3_int.mul R) ∧
       Matrix.Identity CInt 3 3 = Except.ok (R.mul unit_3x3_int)) ∧
    (inverse_4x4 scale_4x4_int = Except.ok (Matrix.zero CInt 4 4) ∧
     ∃ R, inverse_4x4 unit_4x4_int = Except.ok R ∧
       Matrix.Identity CInt 4 4 = Except.ok (unit_4x4_int.mul R) ∧
       Matrix.Identity CInt 4 4 = Except.ok (R.mul unit_4x4_int)) :=
  ⟨⟨(inverse_int_truncates.1 diag2_int).1 (by rw [diag2_int_det]; decide),
    (inverse_int_truncates.1 shear_int).2 (Or.inr shear_int_det)⟩,
   ⟨(inverse_int_truncates.2.1 scale_3x3_int).1 (by rw [scale_3x3_int_det]; decide),
    (inverse_int_truncates.2.1 unit_3x3_int).2 (Or.inl unit_3x3_int_det)⟩,
   ⟨(inverse_int_truncates.2.2.1 scale_4x4_int).1 (by rw [scale_4x4_int_det]; decide),
    (inverse_int_truncates.2.2.1 unit_4x4_int).2 (Or.inr unit_4x4_int_det)⟩⟩

end math
